import Mathlib

/-!
# gomacro `experiments/jit` : arithmetic emitter for arm64

A shallow embedding of `experiments/jit/arith_arm64.go`.  The receiver `*Asm`
is threaded explicitly: every emitting function takes the context and returns
the updated one.  Machine integers are `Nat`/`Int` with explicit reductions
modulo `2^32` (instruction words) and `2^64` (`int64` constants and register
contents).
-/

namespace Jit

/-! ## Machine integers -/

/-- Conversion `uint64(val)` of an `int64`: the residue modulo `2^64`. -/
def toUint64 (val : Int) : Nat := (val % 2 ^ 64).toNat

/-- Conversion `uint32(val)` of an `int64`: the residue modulo `2^32`. -/
def toUint32 (val : Int) : Nat := (val % 2 ^ 32).toNat

/-- Two's complement reduction of an integer to the `int64` range. -/
def wrap64 (v : Int) : Int := (v + 2 ^ 63) % 2 ^ 64 - 2 ^ 63

/-- Range of the `int64` type. -/
def isInt64 (v : Int) : Prop := -2 ^ 63 ≤ v ∧ v < 2 ^ 63

instance (v : Int) : Decidable (isInt64 v) := by
  unfold isInt64; exact inferInstance

/-! ## Data model -/

/-- Type-kind tag carried by a constant operand. -/
abbrev Kind := Nat

/-- Register operand `Reg` of the emitter (the destination `z`). -/
structure Reg where
  id : Nat
deriving DecidableEq, Repr

/-- Hardware register `hwReg` handed out by the register arena. -/
structure hwReg where
  id : Nat
deriving DecidableEq, Repr

/-- Constant operand: the source builds it as `&Const{c.kind, val - 1}`. -/
structure Const where
  kind : Kind
  val : Int
deriving DecidableEq, Repr

/-- Memory variable; the source only builds the zero value `&Var{}`. -/
structure Var where
  idx : Nat
deriving DecidableEq, Repr

/-- Operand `Arg`: a register, a constant or a memory variable.  The test
`a.Const()` of the source, followed by the type assertion `a.(*Const)`, is the
match on the constructor `const`. -/
inductive Arg where
  | reg (r : Reg)
  | const (c : Const)
  | var (v : Var)
deriving DecidableEq, Repr

/-- Code-generation context `Asm`: the instruction stream (32-bit words, oldest
first) and the hardware registers of the arena that are currently acquired. -/
structure Asm where
  code : List Nat
  hwRegs : List hwReg
deriving DecidableEq, Repr

/-- Modelled from the spec: the instruction-word append primitive `asm.Uint32`,
absent from the sources; "an immutable 32-bit value appended to the instruction
stream". -/
def Uint32 (asm : Asm) (val : Nat) : Asm :=
  { asm with code := asm.code ++ [val % 2 ^ 32] }

/-- The collaborators of the emitter whose code is not in the sources: register
encodings, the register allocation bridge, and the constant-load, memory-store
and bitwise-AND emitters.  Each is an arbitrary function of the context. -/
structure Bridge where
  /-- `asm.lo(z)`: low-order encoding of the register `z`, a `uint32`. -/
  lo : Asm → Reg → Nat
  /-- `r.lo()`: low-order encoding of a hardware register, a `uint32`. -/
  hwLo : hwReg → Nat
  /-- `asm.hwAlloc(a)`: hardware register holding `a`, and whether it was
  freshly allocated. -/
  hwAlloc : Asm → Arg → hwReg × Bool × Asm
  /-- `asm.hwFree(r, alloc)`. -/
  hwFree : Asm → hwReg → Bool → Asm
  /-- `asm.hwRegs.Alloc()`. -/
  Alloc : Asm → hwReg × Asm
  /-- `asm.LoadConst(z, val)`. -/
  LoadConst : Asm → Reg → Int → Asm
  /-- `asm.loadConst(r, val)`. -/
  loadConst : Asm → hwReg → Int → Asm
  /-- `asm.storeReg(v, r)`. -/
  storeReg : Asm → Var → hwReg → Asm
  /-- `asm.And(z, a)`. -/
  And : Asm → Reg → Arg → Asm
  /-- The scratch register `x29`. -/
  x29 : hwReg

/-! ## Instruction words

The `uint32` expressions the source passes to `asm.Uint32`, one definition per
expression; `r`, `tmp`, `den`, `quo` stand for the values of `asm.lo(z)` and
`hwReg.lo()`.  Shifts and products are reduced modulo `2^32` as `uint32`
arithmetic does. -/

/-- Word `0x91<<24 | uint32(val)<<10 | asm.lo(z)*0x21` of `add_const`. -/
def addImmWord (val : Int) (r : Nat) : Nat :=
  0x91 <<< 24 ||| (toUint32 val <<< 10) % 2 ^ 32 ||| (r * 0x21) % 2 ^ 32

/-- Word `0xd1<<24 | uint32(val)<<10 | asm.lo(z)*0x21` of `sub_const`. -/
def subImmWord (val : Int) (r : Nat) : Nat :=
  0xd1 <<< 24 ||| (toUint32 val <<< 10) % 2 ^ 32 ||| (r * 0x21) % 2 ^ 32

/-- Word `0x8b<<24 | tmp.lo()<<16 | asm.lo(z)*0x21` of `Add`. -/
def addRegWord (tmp r : Nat) : Nat :=
  0x8b <<< 24 ||| (tmp <<< 16) % 2 ^ 32 ||| (r * 0x21) % 2 ^ 32

/-- Word `0xcb<<24 | tmp.lo()<<16 | asm.lo(z)*0x21` of `Sub`. -/
def subRegWord (tmp r : Nat) : Nat :=
  0xcb <<< 24 ||| (tmp <<< 16) % 2 ^ 32 ||| (r * 0x21) % 2 ^ 32

/-- Word `0x9b007c00 | tmp.lo()<<16 | asm.lo(z)*0x21` of `Mul`. -/
def mulWord (tmp r : Nat) : Nat :=
  0x9b007c00 ||| (tmp <<< 16) % 2 ^ 32 ||| (r * 0x21) % 2 ^ 32

/-- Word `0x9ac00c00 | tmp.lo()<<16 | asm.lo(z)*0x21` of `Quo`. -/
def quoWord (tmp r : Nat) : Nat :=
  0x9ac00c00 ||| (tmp <<< 16) % 2 ^ 32 ||| (r * 0x21) % 2 ^ 32

/-- Word `0x9ac00c00 | den.lo()<<16 | asm.lo(z)<<5 | quo.lo()` of `Rem`. -/
def remSdivWord (den r quo : Nat) : Nat :=
  0x9ac00c00 ||| (den <<< 16) % 2 ^ 32 ||| (r <<< 5) % 2 ^ 32 ||| quo % 2 ^ 32

/-- Word `0x9b008000 | den.lo()<<16 | quo.lo()<<5 | asm.lo(z)*0x401` of `Rem`. -/
def remMsubWord (den quo r : Nat) : Nat :=
  0x9b008000 ||| (den <<< 16) % 2 ^ 32 ||| (quo <<< 5) % 2 ^ 32 ||| (r * 0x401) % 2 ^ 32

/-- Word `0xcb0003e0 | asm.lo(z)*0x10001` of `Neg`. -/
def negWord (r : Nat) : Nat :=
  0xcb0003e0 ||| (r * 0x10001) % 2 ^ 32

/-! ## The emitter (`arith_arm64.go`) -/

/-- `func (asm *Asm) add_const(z Reg, val int64) bool`. -/
def add_const (B : Bridge) (asm : Asm) (z : Reg) (val : Int) : Bool × Asm :=
  if val = 0 then
    (true, asm)
  else if toUint64 val < 4096 then
    (true, Uint32 asm (addImmWord val (B.lo asm z)))
  else
    (false, asm)

/-- `func (asm *Asm) sub_const(z Reg, val int64) bool`. -/
def sub_const (B : Bridge) (asm : Asm) (z : Reg) (val : Int) : Bool × Asm :=
  if val = 0 then
    (true, asm)
  else if toUint64 val < 4096 then
    (true, Uint32 asm (subImmWord val (B.lo asm z)))
  else
    (false, asm)

/-- Tail of `Add`: `tmp, alloc := asm.hwAlloc(a)`, one `add xz, xz, xtmp`
word, `asm.hwFree(tmp, alloc)`. -/
def addReg (B : Bridge) (asm : Asm) (z : Reg) (a : Arg) : Asm :=
  match B.hwAlloc asm a with
  | (tmp, alloc, asm1) =>
    B.hwFree (Uint32 asm1 (addRegWord (B.hwLo tmp) (B.lo asm1 z))) tmp alloc

/-- `func (asm *Asm) Add(z Reg, a Arg) *Asm`: `xz += a`. -/
def Add (B : Bridge) (asm : Asm) (z : Reg) (a : Arg) : Asm :=
  match a with
  | .const c =>
    match add_const B asm z c.val with
    | (true, asm1) => asm1
    | (false, asm1) =>
      match sub_const B asm1 z (wrap64 (-c.val)) with
      | (true, asm2) => asm2
      | (false, asm2) => addReg B asm2 z a
  | _ => addReg B asm z a

/-- Tail of `Sub`: `tmp, alloc := asm.hwAlloc(a)`, one `sub xz, xz, xtmp`
word, `asm.hwFree(tmp, alloc)`. -/
def subReg (B : Bridge) (asm : Asm) (z : Reg) (a : Arg) : Asm :=
  match B.hwAlloc asm a with
  | (tmp, alloc, asm1) =>
    B.hwFree (Uint32 asm1 (subRegWord (B.hwLo tmp) (B.lo asm1 z))) tmp alloc

/-- `func (asm *Asm) Sub(z Reg, a Arg) *Asm`: `xz -= a`. -/
def Sub (B : Bridge) (asm : Asm) (z : Reg) (a : Arg) : Asm :=
  match a with
  | .const c =>
    match sub_const B asm z c.val with
    | (true, asm1) => asm1
    | (false, asm1) =>
      match add_const B asm1 z (wrap64 (-c.val)) with
      | (true, asm2) => asm2
      | (false, asm2) => subReg B asm2 z a
  | _ => subReg B asm z a

/-- Tail of `Mul`: `tmp, alloc := asm.hwAlloc(a)`, one `mul xz, xz, xtmp`
word, `asm.hwFree(tmp, alloc)`. -/
def mulReg (B : Bridge) (asm : Asm) (z : Reg) (a : Arg) : Asm :=
  match B.hwAlloc asm a with
  | (tmp, alloc, asm1) =>
    B.hwFree (Uint32 asm1 (mulWord (B.hwLo tmp) (B.lo asm1 z))) tmp alloc

/-- `func (asm *Asm) Mul(z Reg, a Arg) *Asm`: `xz *= a`. -/
def Mul (B : Bridge) (asm : Asm) (z : Reg) (a : Arg) : Asm :=
  match a with
  | .const c =>
    if c.val = 0 then
      B.LoadConst asm z 0
    else if c.val = 1 then
      asm
    else if c.val = 2 then
      Add B asm z (.reg z)
    else
      mulReg B asm z a
  | _ => mulReg B asm z a

/-- The fault sequence of `Quo` and `Rem` on the constant `0`:
`asm.loadConst(x29, 0).storeReg(&Var{}, x29)`. -/
def fault (B : Bridge) (asm : Asm) : Asm :=
  B.storeReg (B.loadConst asm B.x29 0) ⟨0⟩ B.x29

/-- Tail of `Quo`: `tmp, alloc := asm.hwAlloc(a)`, one `sdiv xz, xz, xtmp`
word, `asm.hwFree(tmp, alloc)`. -/
def quoReg (B : Bridge) (asm : Asm) (z : Reg) (a : Arg) : Asm :=
  match B.hwAlloc asm a with
  | (tmp, alloc, asm1) =>
    B.hwFree (Uint32 asm1 (quoWord (B.hwLo tmp) (B.lo asm1 z))) tmp alloc

/-- `func (asm *Asm) Quo(z Reg, a Arg) *Asm`: `xz /= a`. -/
def Quo (B : Bridge) (asm : Asm) (z : Reg) (a : Arg) : Asm :=
  match a with
  | .const c =>
    if c.val = 0 then
      fault B asm
    else if c.val = 1 then
      asm
    else
      quoReg B asm z a
  | _ => quoReg B asm z a

/-- 64-bit two's complement `val & (val-1)`, on the unsigned residues. -/
def andPred (val : Int) : Nat := toUint64 val &&& toUint64 (val - 1)

/-- Tail of `Rem`: `den, alloc := asm.hwAlloc(a)`, `quo := asm.hwRegs.Alloc()`,
the words `sdiv quo, xz, den` and `msub xz, quo, den, xz`, then
`asm.hwFree(quo, true)` and `asm.hwFree(den, alloc)`. -/
def remReg (B : Bridge) (asm : Asm) (z : Reg) (a : Arg) : Asm :=
  match B.hwAlloc asm a with
  | (den, alloc, asm1) =>
    match B.Alloc asm1 with
    | (quo, asm2) =>
      let asm3 := Uint32 asm2 (remSdivWord (B.hwLo den) (B.lo asm2 z) (B.hwLo quo))
      let asm4 := Uint32 asm3 (remMsubWord (B.hwLo den) (B.hwLo quo) (B.lo asm3 z))
      B.hwFree (B.hwFree asm4 quo true) den alloc

/-- `func (asm *Asm) Rem(z Reg, a Arg) *Asm`: `xz %= a`. -/
def Rem (B : Bridge) (asm : Asm) (z : Reg) (a : Arg) : Asm :=
  match a with
  | .const c =>
    if c.val = 0 then
      fault B asm
    else if andPred c.val = 0 then
      B.And asm z (.const ⟨c.kind, wrap64 (c.val - 1)⟩)
    else
      remReg B asm z a
  | _ => remReg B asm z a

/-- `func (asm *Asm) Neg(z Reg) *Asm`: `xz = - xz`. -/
def Neg (B : Bridge) (asm : Asm) (z : Reg) : Asm :=
  Uint32 asm (negWord (B.lo asm z))

/-! ## Meaning of the emitted words

The source names the instruction of every word it emits in a comment
(`add xz, xz, $val`, `sdiv quo, xz, den`, `msub xz, quo, den, xz`, ...).  The
definitions below give these instructions their meaning on a register file, so
that statements about the value a sequence leaves in `z` can be made on the
emitted bits. -/

/-- The `len` bits of the word `w` starting at bit `pos`. -/
def field (w pos len : Nat) : Nat := (w >>> pos) % 2 ^ len

/-- Instructions of the families the emitter uses, with their register and
immediate fields. -/
inductive Instr where
  /-- `add xd, xn, $imm`. -/
  | add_imm (rd rn imm : Nat)
  /-- `sub xd, xn, $imm`. -/
  | sub_imm (rd rn imm : Nat)
  /-- `add xd, xn, xm`. -/
  | add (rd rn rm : Nat)
  /-- `sub xd, xn, xm`; `neg xd, xm` when `rn` is the zero register. -/
  | sub (rd rn rm : Nat)
  /-- `madd xd, xn, xm, xa`; `mul xd, xn, xm` when `ra` is the zero register. -/
  | madd (rd rn rm ra : Nat)
  /-- `msub xd, xn, xm, xa`. -/
  | msub (rd rn rm ra : Nat)
  /-- `sdiv xd, xn, xm`. -/
  | sdiv (rd rn rm : Nat)
  /-- `movz xd, $imm`. -/
  | movz (rd imm : Nat)
deriving DecidableEq, Repr

/-- Decoder of the instruction families above: the fixed bits select the
family, the remaining fields are the operands. -/
def decode (w : Nat) : Option Instr :=
  if field w 22 10 = 0x244 then
    some (.add_imm (field w 0 5) (field w 5 5) (field w 10 12))
  else if field w 22 10 = 0x344 then
    some (.sub_imm (field w 0 5) (field w 5 5) (field w 10 12))
  else if field w 21 11 = 0x458 ∧ field w 10 6 = 0 then
    some (.add (field w 0 5) (field w 5 5) (field w 16 5))
  else if field w 21 11 = 0x658 ∧ field w 10 6 = 0 then
    some (.sub (field w 0 5) (field w 5 5) (field w 16 5))
  else if field w 21 11 = 0x4d8 ∧ field w 15 1 = 0 then
    some (.madd (field w 0 5) (field w 5 5) (field w 16 5) (field w 10 5))
  else if field w 21 11 = 0x4d8 ∧ field w 15 1 = 1 then
    some (.msub (field w 0 5) (field w 5 5) (field w 16 5) (field w 10 5))
  else if field w 21 11 = 0x4d6 ∧ field w 10 6 = 3 then
    some (.sdiv (field w 0 5) (field w 5 5) (field w 16 5))
  else if field w 21 11 = 0x694 then
    some (.movz (field w 0 5) (field w 5 16))
  else
    none

/-- Register file: the signed 64-bit content of each register number. -/
abbrev RegFile := Nat → Int

/-- Read of a register operand; number 31 is the zero register. -/
def xread (regs : RegFile) (r : Nat) : Int := if r = 31 then 0 else regs r

/-- Write of a register operand; a write to the zero register is dropped. -/
def xwrite (regs : RegFile) (r : Nat) (v : Int) : RegFile :=
  fun i => if i = r ∧ r ≠ 31 then v else regs i

/-- Write of the destination of an immediate form, where number 31 is an
ordinary slot (the stack pointer). -/
def xset (regs : RegFile) (r : Nat) (v : Int) : RegFile :=
  fun i => if i = r then v else regs i

/-- Signed division of the `sdiv` instruction: truncation toward zero, the
quotient reduced to 64 bits. -/
def sdiv64 (n m : Int) : Int := wrap64 (Int.tdiv n m)

/-- Multiply-subtract of the `msub` instruction: `a - n * m` on 64 bits. -/
def msub64 (a n m : Int) : Int := wrap64 (a - n * m)

/-- Bitwise AND of two signed 64-bit values, on their unsigned residues. -/
def and64 (x y : Int) : Int := wrap64 ((toUint64 x &&& toUint64 y : Nat) : Int)

/-- Effect of one instruction on the register file, in 64-bit wraparound
arithmetic. -/
def exec (i : Instr) (regs : RegFile) : RegFile :=
  match i with
  | .add_imm rd rn imm => xset regs rd (wrap64 (regs rn + imm))
  | .sub_imm rd rn imm => xset regs rd (wrap64 (regs rn - imm))
  | .add rd rn rm => xwrite regs rd (wrap64 (xread regs rn + xread regs rm))
  | .sub rd rn rm => xwrite regs rd (wrap64 (xread regs rn - xread regs rm))
  | .madd rd rn rm ra =>
    xwrite regs rd (wrap64 (xread regs ra + xread regs rn * xread regs rm))
  | .msub rd rn rm ra =>
    xwrite regs rd (msub64 (xread regs ra) (xread regs rn) (xread regs rm))
  | .sdiv rd rn rm => xwrite regs rd (sdiv64 (xread regs rn) (xread regs rm))
  | .movz rd imm => xwrite regs rd imm

/-- Execution of a sequence of words, oldest first; `none` when a word is not
of a known family. -/
def run : List Nat → RegFile → Option RegFile
  | [], regs => some regs
  | w :: ws, regs =>
    match decode w with
    | some i => run ws (exec i regs)
    | none => none

/-! ## A reference instance of the collaborators -/

/-- Modelled from the spec: the acquire primitive of the register arena, absent
from the sources; it hands out the lowest of the registers `x0`..`x28` that is
not acquired (`x0` when all are). -/
def firstFree (used : List hwReg) : hwReg :=
  ⟨((List.range 29).find? (fun i => decide (hwReg.mk i ∉ used))).getD 0⟩

/-- Modelled from the spec: the words of the constant-load primitive, absent
from the sources, for the constant `val` and the register number `r`.  The
spec gives no bit layout for it; these are the `movz` word of the architecture
for a 16-bit value, `movz` and three `movk` otherwise. -/
def movWords (r : Nat) (val : Int) : List Nat :=
  let u := toUint64 val
  if u < 65536 then
    [0xd2800000 ||| u <<< 5 ||| r]
  else
    [0xd2800000 ||| (u % 65536) <<< 5 ||| r,
     0xf2a00000 ||| (u / 2 ^ 16 % 65536) <<< 5 ||| r,
     0xf2c00000 ||| (u / 2 ^ 32 % 65536) <<< 5 ||| r,
     0xf2e00000 ||| (u / 2 ^ 48 % 65536) <<< 5 ||| r]

/-- Modelled from the spec: the constant-load primitive `loadConst`, absent
from the sources, appending the words of `movWords`. -/
def refLoadConst (asm : Asm) (r : hwReg) (val : Int) : Asm :=
  (movWords (r.id % 32) val).foldl Uint32 asm

/-- Modelled from the spec: the bridge `hwAlloc`, absent from the sources,
which "acquires a hardware register for an operand not already
hardware-resident": a register operand is lent as it is (flag false), a
constant or a memory variable gets the lowest free register, loaded with its
value (`ldr` from the frame of `x29` for a variable), to be released by the
caller (flag true). -/
def refHwAlloc (asm : Asm) (a : Arg) : hwReg × Bool × Asm :=
  match a with
  | .reg r => (⟨r.id⟩, false, asm)
  | .const c =>
    let r := firstFree asm.hwRegs
    (r, true, refLoadConst { asm with hwRegs := r :: asm.hwRegs } r c.val)
  | .var v =>
    let r := firstFree asm.hwRegs
    (r, true, Uint32 { asm with hwRegs := r :: asm.hwRegs }
      (0xf9400000 ||| (v.idx % 4096) <<< 10 ||| 29 <<< 5 ||| r.id % 32))

/-- Modelled from the spec: the release `hwFree`, absent from the sources; the
flag says "whether the emitter must release it (freshly allocated) or must not
(caller-supplied)". -/
def refHwFree (asm : Asm) (r : hwReg) (alloc : Bool) : Asm :=
  if alloc then { asm with hwRegs := asm.hwRegs.erase r } else asm

/-- Modelled from the spec: an instance of the collaborators that are absent
from the sources, to evaluate the emitter on concrete operands.  A register
"carries a 5-bit low-order encoding", here its number modulo 32; the bridge
"acquires/releases a hardware register for an operand not already
hardware-resident, tracked as borrowed-vs-owned".  The spec gives no bit layout
for the constant-load, memory and AND primitives: this instance emits the
`movz`/`movk`, `ldr`/`str` and `and` words of the architecture. -/
def refBridge : Bridge where
  lo := fun _ z => z.id % 32
  hwLo := fun r => r.id % 32
  hwAlloc := refHwAlloc
  hwFree := refHwFree
  Alloc := fun asm =>
    (firstFree asm.hwRegs, { asm with hwRegs := firstFree asm.hwRegs :: asm.hwRegs })
  LoadConst := fun asm z val => refLoadConst asm ⟨z.id⟩ val
  loadConst := refLoadConst
  storeReg := fun asm v r =>
    Uint32 asm (0xf9000000 ||| (v.idx % 4096) <<< 10 ||| 29 <<< 5 ||| r.id % 32)
  And := fun asm z a =>
    match refHwAlloc asm a with
    | (tmp, alloc, asm1) =>
      refHwFree
        (Uint32 asm1 (0x8a000000 ||| (tmp.id % 32) <<< 16 ||| (z.id % 32) * 0x21)) tmp alloc
  x29 := ⟨29⟩

/-- The empty context: no word emitted, no register acquired. -/
def asm0 : Asm := ⟨[], []⟩

/-- Words appended to the stream between the context `before` and the context
`after`. -/
def emitted (before after : Asm) : List Nat :=
  after.code.drop before.code.length

/-! ## Contracts of the collaborators -/

/-- Modelled from the spec: the collaborators, absent from the sources, only
append to the instruction stream ("an immutable 32-bit value appended to the
instruction stream; never mutated post-emission"). -/
structure Bridge.AppendOnly (B : Bridge) : Prop where
  hwAlloc : ∀ (s : Asm) (a : Arg), s.code <+: (B.hwAlloc s a).2.2.code
  hwFree : ∀ (s : Asm) (r : hwReg) (b : Bool), s.code <+: (B.hwFree s r b).code
  Alloc : ∀ s : Asm, s.code <+: (B.Alloc s).2.code
  LoadConst : ∀ (s : Asm) (z : Reg) (v : Int), s.code <+: (B.LoadConst s z v).code
  loadConst : ∀ (s : Asm) (r : hwReg) (v : Int), s.code <+: (B.loadConst s r v).code
  storeReg : ∀ (s : Asm) (v : Var) (r : hwReg), s.code <+: (B.storeReg s v r).code
  And : ∀ (s : Asm) (z : Reg) (a : Arg), s.code <+: (B.And s z a).code

/-- Modelled from the spec: the register arena behind the collaborators, absent
from the sources.  `hwRegs` lists the acquired registers, newest first:
`hwAlloc` with a true flag and `Alloc` acquire the register they return,
`hwAlloc` with a false flag lends a caller-supplied register and acquires
nothing, `hwFree` releases the register when the flag is true and does nothing
to the arena when it is false ("whether the emitter must release it (freshly
allocated) or must not (caller-supplied)"); the emitting collaborators leave
the arena as they found it. -/
structure Bridge.ArenaDiscipline (B : Bridge) : Prop where
  hwAlloc_owned : ∀ (s : Asm) (a : Arg), (B.hwAlloc s a).2.1 = true →
    (B.hwAlloc s a).2.2.hwRegs = (B.hwAlloc s a).1 :: s.hwRegs
  hwAlloc_borrowed : ∀ (s : Asm) (a : Arg), (B.hwAlloc s a).2.1 = false →
    (B.hwAlloc s a).2.2.hwRegs = s.hwRegs
  Alloc_owned : ∀ s : Asm, (B.Alloc s).2.hwRegs = (B.Alloc s).1 :: s.hwRegs
  hwFree_owned : ∀ (s : Asm) (r : hwReg), (B.hwFree s r true).hwRegs = s.hwRegs.erase r
  hwFree_borrowed : ∀ (s : Asm) (r : hwReg), (B.hwFree s r false).hwRegs = s.hwRegs
  LoadConst_frame : ∀ (s : Asm) (z : Reg) (v : Int), (B.LoadConst s z v).hwRegs = s.hwRegs
  loadConst_frame : ∀ (s : Asm) (r : hwReg) (v : Int), (B.loadConst s r v).hwRegs = s.hwRegs
  storeReg_frame : ∀ (s : Asm) (v : Var) (r : hwReg), (B.storeReg s v r).hwRegs = s.hwRegs
  And_frame : ∀ (s : Asm) (z : Reg) (a : Arg), (B.And s z a).hwRegs = s.hwRegs

/-! ## Execution with a faulting store -/

/-- Address of a store word `str xt, [xn, $imm]` (64-bit, scaled unsigned
offset) on the register file; `none` for a word of another family. -/
def storeAddr (w : Nat) (regs : RegFile) : Option Int :=
  if field w 22 10 = 0x3e4 then
    some (regs (field w 5 5) + 8 * (field w 10 12 : Nat))
  else
    none

/-- Execution of a sequence of words in which a store through the address `0`
faults, as the source has it ("cause a runtime fault by clearing x29 then
dereferencing it"); any other store leaves the registers as they are.  `none`
is a fault or a word of no known family. -/
def runFault : List Nat → RegFile → Option RegFile
  | [], regs => some regs
  | w :: ws, regs =>
    match storeAddr w regs with
    | some addr => if addr = 0 then none else runFault ws regs
    | none =>
      match decode w with
      | some i => runFault ws (exec i regs)
      | none => none

end Jit

/-! # gomacro `type2` : composite types (`composite.go`) -/

namespace Type2

/-- The kinds of `reflect.Kind`. -/
inductive Kind where
  | Invalid | Bool | Int | Int8 | Int16 | Int32 | Int64
  | Uint | Uint8 | Uint16 | Uint32 | Uint64 | Uintptr
  | Float32 | Float64 | Complex64 | Complex128
  | Array | Chan | Func | Interface | Map | Ptr | Slice | String | Struct | UnsafePointer
deriving DecidableEq, Repr

/-- Static type descriptor, the `types.Type` of `go/types`: the forms the
source switches on (`*types.Array`, `*types.Chan`, `*types.Map`,
`*types.Pointer`, `*types.Slice`, `*types.Signature`, `*types.Named`), with
basic and interface types. -/
inductive GType where
  | basic (kind : Kind)
  | array (len : Int) (elem : GType)
  | chan (dir : Nat) (elem : GType)
  | map (key elem : GType)
  | pointer (elem : GType)
  | slice (elem : GType)
  | signature
  | iface
  | named (name : String) (underlying : GType)
deriving DecidableEq, Repr

/-- Runtime type descriptor, the `reflect.Type`. -/
inductive RType where
  | basic (kind : Kind)
  | array (count : Int) (elem : RType)
  | chan (dir : Nat) (elem : RType)
  | map (key elem : RType)
  | ptr (elem : RType)
  | slice (elem : RType)
  | func
  | iface
deriving DecidableEq, Repr

/-- Method `Kind()` of `reflect.Type`. -/
def RType.Kind : RType → Kind
  | .basic k => k
  | .array _ _ => .Array
  | .chan _ _ => .Chan
  | .map _ _ => .Map
  | .ptr _ => .Ptr
  | .slice _ => .Slice
  | .func => .Func
  | .iface => .Interface

/-- Method `Len()` of `reflect.Type`: the length of an array type; the
library panics on a type of another kind. -/
def RType.Len : RType → Except String Int
  | .array count _ => .ok count
  | _ => .error "reflect: Len of non-array type"

/-- Whether a static type is a `*types.Named`. -/
def GType.isNamed : GType → Bool
  | .named _ _ => true
  | _ => false

/-- Method `Underlying()` of `types.Type`. -/
def GType.Underlying : GType → GType
  | .named _ u => u
  | g => g

/-- Method `SetUnderlying` of `*types.Named` in `go/types`, for the named type
`name`: the library panics when the underlying type passed is itself a
`*types.Named`, and otherwise stores it. -/
def namedSetUnderlying (name : String) (underlying : GType) : Except String GType :=
  match underlying with
  | .named _ _ => .error "types.Named.SetUnderlying(*Named)"
  | u => .ok (.named name u)

/-- Modelled from the spec: the type `timpl` behind `Type`, absent from the
sources, which combines "statically-declared and reflected type descriptors":
the kind the source reads as `signature.kind`, the static `gtype` and the
reflected `rtype`. -/
structure timpl where
  kind : Kind
  gtype : GType
  rtype : RType
deriving DecidableEq, Repr

/-- Modelled from the spec: the method `Kind()` of `timpl`, absent from the
sources; it reads the kind of the type. -/
def timpl.Kind (t : timpl) : Kind := t.kind

/-- Modelled from the spec: `errorf`, absent from the sources, which reports
a misuse "by immediately aborting the current compilation with a descriptive
message"; the message is the format string, without the printed type. -/
def errorf {α : Type} (msg : String) : Except String α := .error msg

/-- `func (t *timpl) Len() int`. -/
def timpl.Len (t : timpl) : Except String Int :=
  if t.Kind ≠ Kind.Func then
    errorf "Len of non-array type"
  else
    t.rtype.Len

/-- `func (t *timpl) SetUnderlying(underlying Type)`; the result is the
receiver after the call. -/
def timpl.SetUnderlying (t : timpl) (underlying : timpl) : Except String timpl :=
  match t.gtype with
  | .named name _ =>
    match namedSetUnderlying name underlying.gtype with
    | .ok g => .ok { t with gtype := g }
    | .error e => .error e
  | _ => errorf "SetUnderlying of unnamed type"

/-- The array type `[3]int`. -/
def arrayOf3Int : timpl :=
  ⟨Kind.Array, .array 3 (.basic Kind.Int), .array 3 (.basic Kind.Int)⟩

/-- The function type `func()`. -/
def funcType : timpl := ⟨Kind.Func, .signature, .func⟩

end Type2

namespace Jit

/-! ## Arithmetic of machine integers -/

theorem wrap64_of_isInt64 (v : Int) (h : isInt64 v) : wrap64 v = v := by
  unfold isInt64 at h
  unfold wrap64
  omega

theorem wrap64_isInt64 (v : Int) : isInt64 (wrap64 v) := by
  unfold isInt64 wrap64
  omega

theorem wrap64_add_mul (v k : Int) : wrap64 (v + 2 ^ 64 * k) = wrap64 v := by
  unfold wrap64
  omega

theorem toUint64_ofNat (n : Nat) (h : n < 2 ^ 64) : toUint64 (n : Int) = n := by
  unfold toUint64
  omega

theorem toUint32_ofNat (n : Nat) (h : n < 2 ^ 32) : toUint32 (n : Int) = n := by
  unfold toUint32
  omega

theorem toUint64_large (v : Int) (h : isInt64 v) (hv : v < 0 ∨ 4096 ≤ v) :
    ¬ toUint64 v < 4096 := by
  unfold isInt64 at h
  unfold toUint64
  omega

/-! ## Bit fields of a word built from disjoint parts -/

theorem or_eq_add_of_dvd (a b i : Nat) (ha : 2 ^ i ∣ a) (hb : b < 2 ^ i) :
    a ||| b = a + b := by
  obtain ⟨k, rfl⟩ := ha
  exact (Nat.mul_add_lt_is_or hb k).symm

theorem field_of_parts (w pos len hi mid lo : Nat)
    (h : w = hi * 2 ^ (pos + len) + mid * 2 ^ pos + lo)
    (hmid : mid < 2 ^ len) (hlo : lo < 2 ^ pos) : field w pos len = mid := by
  unfold field
  have hp : 0 < 2 ^ pos := Nat.two_pow_pos pos
  have h1 : w = (hi * 2 ^ len + mid) * 2 ^ pos + lo := by
    rw [h, Nat.pow_add]; ring
  have h2 : w >>> pos = hi * 2 ^ len + mid := by
    rw [Nat.shiftRight_eq_div_pow, h1, Nat.add_comm, Nat.add_mul_div_right _ _ hp,
      Nat.div_eq_of_lt hlo, Nat.zero_add]
  rw [h2, Nat.add_comm, Nat.add_mul_mod_self_right, Nat.mod_eq_of_lt hmid]

/-! ## Normal forms of the instruction words -/

theorem addImmWord_eq (n r : Nat) (hn : n < 4096) (hr : r < 32) :
    addImmWord (n : Int) r = 0x91000000 + n * 1024 + r * 33 := by
  unfold addImmWord
  rw [toUint32_ofNat n (by omega)]
  have h1 : (n <<< 10) % 2 ^ 32 = n * 1024 := by rw [Nat.shiftLeft_eq]; omega
  have h2 : (r * 0x21) % 2 ^ 32 = r * 33 := by omega
  have h0 : 0x91 <<< 24 = 0x91000000 := by decide
  have e1 : 0x91000000 ||| n * 1024 = 0x91000000 + n * 1024 :=
    or_eq_add_of_dvd _ _ 22 (by omega) (by omega)
  rw [h1, h2, h0, e1, or_eq_add_of_dvd _ _ 10 (by omega) (by omega)]

theorem subImmWord_eq (n r : Nat) (hn : n < 4096) (hr : r < 32) :
    subImmWord (n : Int) r = 0xd1000000 + n * 1024 + r * 33 := by
  unfold subImmWord
  rw [toUint32_ofNat n (by omega)]
  have h1 : (n <<< 10) % 2 ^ 32 = n * 1024 := by rw [Nat.shiftLeft_eq]; omega
  have h2 : (r * 0x21) % 2 ^ 32 = r * 33 := by omega
  have h0 : 0xd1 <<< 24 = 0xd1000000 := by decide
  have e1 : 0xd1000000 ||| n * 1024 = 0xd1000000 + n * 1024 :=
    or_eq_add_of_dvd _ _ 22 (by omega) (by omega)
  rw [h1, h2, h0, e1, or_eq_add_of_dvd _ _ 10 (by omega) (by omega)]

theorem addRegWord_eq (t r : Nat) (ht : t < 32) (hr : r < 32) :
    addRegWord t r = 0x8b000000 + t * 65536 + r * 33 := by
  unfold addRegWord
  have h1 : (t <<< 16) % 2 ^ 32 = t * 65536 := by rw [Nat.shiftLeft_eq]; omega
  have h2 : (r * 0x21) % 2 ^ 32 = r * 33 := by omega
  have h0 : 0x8b <<< 24 = 0x8b000000 := by decide
  have e1 : 0x8b000000 ||| t * 65536 = 0x8b000000 + t * 65536 :=
    or_eq_add_of_dvd _ _ 21 (by omega) (by omega)
  rw [h1, h2, h0, e1, or_eq_add_of_dvd _ _ 16 (by omega) (by omega)]

theorem remSdivWord_eq (d r q : Nat) (hd : d < 32) (hr : r < 32) (hq : q < 32) :
    remSdivWord d r q = 0x9ac00c00 + d * 65536 + r * 32 + q := by
  unfold remSdivWord
  have h1 : (d <<< 16) % 2 ^ 32 = d * 65536 := by rw [Nat.shiftLeft_eq]; omega
  have h2 : (r <<< 5) % 2 ^ 32 = r * 32 := by rw [Nat.shiftLeft_eq]; omega
  have h3 : q % 2 ^ 32 = q := by omega
  have h0 : (0x9ac00c00 : Nat) = 0x9ac00000 ||| 0xc00 := by decide
  have e : 0x9ac00000 ||| 0xc00 ||| d * 65536 ||| r * 32 ||| q
      = 0x9ac00000 ||| d * 65536 ||| 0xc00 ||| r * 32 ||| q := by ac_rfl
  have e1 : 0x9ac00000 ||| d * 65536 = 0x9ac00000 + d * 65536 :=
    or_eq_add_of_dvd _ _ 21 (by omega) (by omega)
  have e2 : 0x9ac00000 + d * 65536 ||| 0xc00 = 0x9ac00000 + d * 65536 + 0xc00 :=
    or_eq_add_of_dvd _ _ 16 (by omega) (by omega)
  have e3 : 0x9ac00000 + d * 65536 + 0xc00 ||| r * 32
      = 0x9ac00000 + d * 65536 + 0xc00 + r * 32 :=
    or_eq_add_of_dvd _ _ 10 (by omega) (by omega)
  rw [h1, h2, h3, h0, e, e1, e2, e3, or_eq_add_of_dvd _ _ 5 (by omega) (by omega)]
  omega

theorem remMsubWord_eq (d q r : Nat) (hd : d < 32) (hq : q < 32) (hr : r < 32) :
    remMsubWord d q r = 0x9b008000 + d * 65536 + r * 1024 + q * 32 + r := by
  unfold remMsubWord
  have h1 : (d <<< 16) % 2 ^ 32 = d * 65536 := by rw [Nat.shiftLeft_eq]; omega
  have h2 : (q <<< 5) % 2 ^ 32 = q * 32 := by rw [Nat.shiftLeft_eq]; omega
  have h3 : (r * 0x401) % 2 ^ 32 = r * 1024 ||| r := by
    rw [or_eq_add_of_dvd _ _ 10 (by omega) (by omega)]; omega
  have h0 : (0x9b008000 : Nat) = 0x9b000000 ||| 0x8000 := by decide
  have e : 0x9b000000 ||| 0x8000 ||| d * 65536 ||| q * 32 ||| (r * 1024 ||| r)
      = 0x9b000000 ||| d * 65536 ||| 0x8000 ||| r * 1024 ||| q * 32 ||| r := by ac_rfl
  have e1 : 0x9b000000 ||| d * 65536 = 0x9b000000 + d * 65536 :=
    or_eq_add_of_dvd _ _ 21 (by omega) (by omega)
  have e2 : 0x9b000000 + d * 65536 ||| 0x8000 = 0x9b000000 + d * 65536 + 0x8000 :=
    or_eq_add_of_dvd _ _ 16 (by omega) (by omega)
  have e3 : 0x9b000000 + d * 65536 + 0x8000 ||| r * 1024
      = 0x9b000000 + d * 65536 + 0x8000 + r * 1024 :=
    or_eq_add_of_dvd _ _ 15 (by omega) (by omega)
  have e4 : 0x9b000000 + d * 65536 + 0x8000 + r * 1024 ||| q * 32
      = 0x9b000000 + d * 65536 + 0x8000 + r * 1024 + q * 32 :=
    or_eq_add_of_dvd _ _ 10 (by omega) (by omega)
  rw [h1, h2, h3, h0, e, e1, e2, e3, e4, or_eq_add_of_dvd _ _ 5 (by omega) (by omega)]
  omega

/-! ## Decoding the emitted words -/

theorem decode_addImm (n r : Nat) (hn : n < 4096) (hr : r < 32) :
    decode (0x91000000 + n * 1024 + r * 33) = some (.add_imm r r n) := by
  have f1 := field_of_parts (0x91000000 + n * 1024 + r * 33) 22 10 0 0x244 (n * 1024 + r * 33)
    (by omega) (by omega) (by omega)
  have f2 := field_of_parts (0x91000000 + n * 1024 + r * 33) 0 5 (0x4880000 + n * 32 + r) r 0
    (by omega) (by omega) (by omega)
  have f3 := field_of_parts (0x91000000 + n * 1024 + r * 33) 5 5 (0x244000 + n) r r
    (by omega) (by omega) (by omega)
  have f4 := field_of_parts (0x91000000 + n * 1024 + r * 33) 10 12 0x244 n (r * 33)
    (by omega) (by omega) (by omega)
  simp only [decode, f1, f2, f3, f4, if_true]

theorem decode_subImm (n r : Nat) (hn : n < 4096) (hr : r < 32) :
    decode (0xd1000000 + n * 1024 + r * 33) = some (.sub_imm r r n) := by
  have f1 := field_of_parts (0xd1000000 + n * 1024 + r * 33) 22 10 0 0x344 (n * 1024 + r * 33)
    (by omega) (by omega) (by omega)
  have f2 := field_of_parts (0xd1000000 + n * 1024 + r * 33) 0 5 (0x6880000 + n * 32 + r) r 0
    (by omega) (by omega) (by omega)
  have f3 := field_of_parts (0xd1000000 + n * 1024 + r * 33) 5 5 (0x344000 + n) r r
    (by omega) (by omega) (by omega)
  have f4 := field_of_parts (0xd1000000 + n * 1024 + r * 33) 10 12 0x344 n (r * 33)
    (by omega) (by omega) (by omega)
  simp [decode, f1, f2, f3, f4]

theorem decode_addReg (t r : Nat) (ht : t < 32) (hr : r < 32) :
    decode (0x8b000000 + t * 65536 + r * 33) = some (.add r r t) := by
  have f0 := field_of_parts (0x8b000000 + t * 65536 + r * 33) 22 10 0 0x22c
    (t * 65536 + r * 33) (by omega) (by omega) (by omega)
  have f1 := field_of_parts (0x8b000000 + t * 65536 + r * 33) 21 11 0 0x458
    (t * 65536 + r * 33) (by omega) (by omega) (by omega)
  have f2 := field_of_parts (0x8b000000 + t * 65536 + r * 33) 10 6 (0x8b00 + t) 0 (r * 33)
    (by omega) (by omega) (by omega)
  have f3 := field_of_parts (0x8b000000 + t * 65536 + r * 33) 0 5 (0x4580000 + t * 2048 + r) r 0
    (by omega) (by omega) (by omega)
  have f4 := field_of_parts (0x8b000000 + t * 65536 + r * 33) 5 5 (0x22c000 + t * 64) r r
    (by omega) (by omega) (by omega)
  have f5 := field_of_parts (0x8b000000 + t * 65536 + r * 33) 16 5 0x458 t (r * 33)
    (by omega) (by omega) (by omega)
  simp [decode, f0, f1, f2, f3, f4, f5]

theorem decode_remSdiv (d r q : Nat) (hd : d < 32) (hr : r < 32) (hq : q < 32) :
    decode (0x9ac00c00 + d * 65536 + r * 32 + q) = some (.sdiv q r d) := by
  have f0 := field_of_parts (0x9ac00c00 + d * 65536 + r * 32 + q) 22 10 0 0x26b
    (d * 65536 + 0xc00 + r * 32 + q) (by omega) (by omega) (by omega)
  have f1 := field_of_parts (0x9ac00c00 + d * 65536 + r * 32 + q) 21 11 0 0x4d6
    (d * 65536 + 0xc00 + r * 32 + q) (by omega) (by omega) (by omega)
  have f2 := field_of_parts (0x9ac00c00 + d * 65536 + r * 32 + q) 10 6 (0x9ac0 + d) 3
    (r * 32 + q) (by omega) (by omega) (by omega)
  have f3 := field_of_parts (0x9ac00c00 + d * 65536 + r * 32 + q) 0 5
    (0x4d60060 + d * 2048 + r) q 0 (by omega) (by omega) (by omega)
  have f4 := field_of_parts (0x9ac00c00 + d * 65536 + r * 32 + q) 5 5
    (0x26b003 + d * 64) r q (by omega) (by omega) (by omega)
  have f5 := field_of_parts (0x9ac00c00 + d * 65536 + r * 32 + q) 16 5 0x4d6 d
    (0xc00 + r * 32 + q) (by omega) (by omega) (by omega)
  simp [decode, f0, f1, f2, f3, f4, f5]

theorem decode_remMsub (d q r : Nat) (hd : d < 32) (hq : q < 32) (hr : r < 32) :
    decode (0x9b008000 + d * 65536 + r * 1024 + q * 32 + r) = some (.msub r q d r) := by
  have f0 := field_of_parts (0x9b008000 + d * 65536 + r * 1024 + q * 32 + r) 22 10 0 0x26c
    (d * 65536 + 0x8000 + r * 1024 + q * 32 + r) (by omega) (by omega) (by omega)
  have f1 := field_of_parts (0x9b008000 + d * 65536 + r * 1024 + q * 32 + r) 21 11 0 0x4d8
    (d * 65536 + 0x8000 + r * 1024 + q * 32 + r) (by omega) (by omega) (by omega)
  have f2 := field_of_parts (0x9b008000 + d * 65536 + r * 1024 + q * 32 + r) 15 1
    (0x9b00 + d) 1 (r * 1024 + q * 32 + r) (by omega) (by omega) (by omega)
  have f3 := field_of_parts (0x9b008000 + d * 65536 + r * 1024 + q * 32 + r) 0 5
    (0x4d80400 + d * 2048 + r * 32 + q) r 0 (by omega) (by omega) (by omega)
  have f4 := field_of_parts (0x9b008000 + d * 65536 + r * 1024 + q * 32 + r) 5 5
    (0x26c020 + d * 64 + r) q r (by omega) (by omega) (by omega)
  have f5 := field_of_parts (0x9b008000 + d * 65536 + r * 1024 + q * 32 + r) 16 5 0x4d8 d
    (0x8000 + r * 1024 + q * 32 + r) (by omega) (by omega) (by omega)
  have f6 := field_of_parts (0x9b008000 + d * 65536 + r * 1024 + q * 32 + r) 10 5
    (0x13601 + d * 2) r (q * 32 + r) (by omega) (by omega) (by omega)
  simp [decode, f0, f1, f2, f3, f4, f5, f6]

/-! ## The remainder computed by `sdiv` and `msub` -/

theorem tmod_between (z a : Int) :
    (0 ≤ z → 0 ≤ z.tmod a ∧ z.tmod a ≤ z) ∧ (z ≤ 0 → z ≤ z.tmod a ∧ z.tmod a ≤ 0) := by
  rcases z with m | m <;> rcases a with n | n
  · have h := Nat.mod_le m n
    have e : Int.tmod (Int.ofNat m) (Int.ofNat n) = ((m % n : Nat) : Int) := rfl
    rw [e]; simp only [Int.ofNat_eq_coe]; omega
  · have h := Nat.mod_le m (n + 1)
    have e : Int.tmod (Int.ofNat m) (Int.negSucc n) = ((m % (n + 1) : Nat) : Int) := rfl
    rw [e]; simp only [Int.ofNat_eq_coe]; omega
  · have h := Nat.mod_le (m + 1) n
    have e : Int.tmod (Int.negSucc m) (Int.ofNat n) = -((((m + 1) % n : Nat)) : Int) := rfl
    rw [e]; simp only [Int.negSucc_eq]; omega
  · have h := Nat.mod_le (m + 1) (n + 1)
    have e : Int.tmod (Int.negSucc m) (Int.negSucc n)
        = -((((m + 1) % (n + 1) : Nat)) : Int) := rfl
    rw [e]; simp only [Int.negSucc_eq]; omega

theorem tmod_isInt64 (z a : Int) (hz : isInt64 z) : isInt64 (z.tmod a) := by
  have h := tmod_between z a
  unfold isInt64 at *
  omega

theorem wrap64_eq_sub (v : Int) : ∃ k : Int, wrap64 v = v - 2 ^ 64 * k :=
  ⟨(v + 2 ^ 63) / 2 ^ 64, by unfold wrap64; omega⟩

theorem msub_sdiv_eq_tmod (z a : Int) (hz : isInt64 z) :
    msub64 z (sdiv64 z a) a = z.tmod a := by
  unfold msub64 sdiv64
  obtain ⟨k, hk⟩ := wrap64_eq_sub (z.tdiv a)
  have e : z - wrap64 (z.tdiv a) * a = z.tmod a + 2 ^ 64 * (k * a) := by
    rw [hk, Int.tmod_def]; ring
  rw [e, wrap64_add_mul, wrap64_of_isInt64 _ (tmod_isInt64 z a hz)]

theorem tmod_natAbs_lt (z a : Int) (ha : a ≠ 0) : (z.tmod a).natAbs < a.natAbs := by
  rcases z with m | m <;> rcases a with n | n
  · have hn : n ≠ 0 := fun h => ha (by rw [h]; rfl)
    have h := Nat.mod_lt m (Nat.pos_of_ne_zero hn)
    have e : Int.tmod (Int.ofNat m) (Int.ofNat n) = ((m % n : Nat) : Int) := rfl
    rw [e]; simp only [Int.ofNat_eq_coe, Int.natAbs_ofNat]; exact h
  · have h := Nat.mod_lt m (Nat.succ_pos n)
    have e : Int.tmod (Int.ofNat m) (Int.negSucc n) = ((m % (n + 1) : Nat) : Int) := rfl
    rw [e]; simp only [Int.natAbs_ofNat, Int.natAbs_negSucc]; exact h
  · have hn : n ≠ 0 := fun h => ha (by rw [h]; rfl)
    have h := Nat.mod_lt (m + 1) (Nat.pos_of_ne_zero hn)
    have e : Int.tmod (Int.negSucc m) (Int.ofNat n) = -((((m + 1) % n : Nat)) : Int) := rfl
    rw [e]; simp only [Int.ofNat_eq_coe, Int.natAbs_neg, Int.natAbs_ofNat]; exact h
  · have h := Nat.mod_lt (m + 1) (Nat.succ_pos n)
    have e : Int.tmod (Int.negSucc m) (Int.negSucc n)
        = -((((m + 1) % (n + 1) : Nat)) : Int) := rfl
    rw [e]; simp only [Int.natAbs_neg, Int.natAbs_ofNat, Int.natAbs_negSucc]; exact h

/-! ## C1 : the power-of-two rewrite of `Rem` and the truncating remainder -/

/-- On a non-negative dividend the mask agrees with the truncating remainder:
for `0 ≤ z < 2^63` and `k ≤ 62`, `z AND (2^k - 1)` is `z` modulo `2^k`. -/
theorem and64_mask_of_nonneg (z : Int) (k : Nat) (h0 : 0 ≤ z) (hz : z < 2 ^ 63)
    (hk : k ≤ 62) : and64 z (2 ^ k - 1) = Int.tmod z (2 ^ k) := by
  obtain ⟨n, rfl⟩ := Int.eq_ofNat_of_zero_le h0
  have hp : (2 : Nat) ^ k ≤ 2 ^ 62 := Nat.pow_le_pow_right (by decide) hk
  have hp0 : 0 < (2 : Nat) ^ k := Nat.two_pow_pos k
  have e1 : ((2 : Int) ^ k - 1) = ((2 ^ k - 1 : Nat) : Int) := by
    rw [Int.ofNat_sub hp0]; simp
  have hlt : n % 2 ^ k < 2 ^ k := Nat.mod_lt _ hp0
  unfold and64
  rw [e1, toUint64_ofNat n (by omega), toUint64_ofNat _ (by omega),
    Nat.and_pow_two_sub_one_eq_mod]
  rw [wrap64_of_isInt64 _ (by unfold isInt64; omega)]
  have e2 : ((2 : Int) ^ k) = ((2 ^ k : Nat) : Int) := by simp
  rw [e2, ← Int.ofNat_tmod]

/-- C1 : `Rem(z, Const 2)` is rewritten to `And(z, Const 1)`, and on the
dividend `z = -1` the value of that AND, `(-1) AND 1 = 1`, is not the
truncating remainder `-1` of `-1` by `2`, which the `sdiv`/`msub` pair of the
general path does compute. -/
theorem Rem_pow2_mask_differs_on_negative :
    (∀ (B : Bridge) (asm : Asm) (z : Reg) (k : Kind),
      Rem B asm z (.const ⟨k, 2⟩) = B.And asm z (.const ⟨k, 1⟩)) ∧
    and64 (-1) (2 - 1) = 1 ∧ Int.tmod (-1) 2 = -1 ∧
    msub64 (-1) (sdiv64 (-1) 2) 2 = -1 := by
  refine ⟨?_, by decide, by decide, by decide⟩
  intro B asm z k
  have h1 : andPred 2 = 0 := by decide
  have h2 : wrap64 1 = 1 := by decide
  simp [Rem, h1, h2]

/-! ## Running the words `sdiv` and `msub` of `Rem` -/

/-- The word `sdiv quo, xz, den` followed by the word `msub xz, quo, den, xz`,
for register numbers `d`, `r`, `q` other than the zero register with `q`
distinct from `r` and `d`, leave the truncating remainder in register `r` and
change no register other than `r` and `q`. -/
theorem run_rem_words (d r q : Nat) (regs : RegFile)
    (hd : d < 31) (hr : r < 31) (hq : q < 31) (hqr : q ≠ r) (hqd : q ≠ d)
    (hz : isInt64 (regs r)) (hne : regs d ≠ 0) :
    ∃ regs', run [remSdivWord d r q, remMsubWord d q r] regs = some regs' ∧
      regs' r = wrap64 (regs r - wrap64 (Int.tdiv (regs r) (regs d)) * regs d) ∧
      regs' r = regs r - Int.tdiv (regs r) (regs d) * regs d ∧
      regs' r = Int.tmod (regs r) (regs d) ∧
      (regs' r).natAbs < (regs d).natAbs ∧
      ∀ i, i ≠ r → i ≠ q → regs' i = regs i := by
  have hval : wrap64 (regs r - wrap64 (Int.tdiv (regs r) (regs d)) * regs d)
      = Int.tmod (regs r) (regs d) := msub_sdiv_eq_tmod (regs r) (regs d) hz
  rw [remSdivWord_eq d r q (by omega) (by omega) (by omega),
    remMsubWord_eq d q r (by omega) (by omega) (by omega)]
  refine ⟨exec (.msub r q d r) (exec (.sdiv q r d) regs), ?_, ?_⟩
  · simp only [run, decode_remSdiv d r q (by omega) (by omega) (by omega),
      decode_remMsub d q r (by omega) (by omega) (by omega)]
  · have hr31 : r ≠ 31 := by omega
    have hq31 : q ≠ 31 := by omega
    have hd31 : d ≠ 31 := by omega
    have hrq : r ≠ q := fun h => hqr h.symm
    have hdq : d ≠ q := fun h => hqd h.symm
    have key : exec (.msub r q d r) (exec (.sdiv q r d) regs) r
        = wrap64 (regs r - wrap64 (Int.tdiv (regs r) (regs d)) * regs d) := by
      simp [exec, xwrite, xread, msub64, sdiv64, hr31, hq31, hd31, hrq, hdq]
    refine ⟨key, ?_, ?_, ?_, ?_⟩
    · rw [key, hval, Int.tmod_def]; ring
    · rw [key, hval]
    · rw [key, hval]; exact tmod_natAbs_lt (regs r) (regs d) hne
    · intro i hir hiq
      simp [exec, xwrite, hir, hiq]

/-! ## C3 : operands eliminated by the emitter -/

/-- C3 : `Add(z, Const 0)`, `Sub(z, Const 0)`, `Mul(z, Const 1)` and
`Quo(z, Const 1)` return the context they were given: the instruction stream
is the one before the call and the set of acquired registers is unchanged,
whatever the collaborators do. -/
theorem identity_constants_emit_nothing (B : Bridge) (asm : Asm) (z : Reg) (k : Kind) :
    Add B asm z (.const ⟨k, 0⟩) = asm ∧ Sub B asm z (.const ⟨k, 0⟩) = asm ∧
    Mul B asm z (.const ⟨k, 1⟩) = asm ∧ Quo B asm z (.const ⟨k, 1⟩) = asm ∧
    emitted asm (Add B asm z (.const ⟨k, 0⟩)) = [] ∧
    emitted asm (Sub B asm z (.const ⟨k, 0⟩)) = [] ∧
    emitted asm (Mul B asm z (.const ⟨k, 1⟩)) = [] ∧
    emitted asm (Quo B asm z (.const ⟨k, 1⟩)) = [] := by
  have h1 : Add B asm z (.const ⟨k, 0⟩) = asm := by simp [Add, add_const]
  have h2 : Sub B asm z (.const ⟨k, 0⟩) = asm := by simp [Sub, sub_const]
  have h3 : Mul B asm z (.const ⟨k, 1⟩) = asm := by simp [Mul]
  have h4 : Quo B asm z (.const ⟨k, 1⟩) = asm := by simp [Quo]
  rw [h1, h2, h3, h4]
  simp [emitted]

/-! ## The immediate encoders -/

theorem mod_two_pow_32_lt (n : Nat) : n % 2 ^ 32 < 2 ^ 32 :=
  Nat.mod_lt _ (Nat.two_pow_pos 32)

theorem addImmWord_lt (v : Int) (r : Nat) : addImmWord v r < 2 ^ 32 :=
  Nat.or_lt_two_pow (Nat.or_lt_two_pow (by decide) (mod_two_pow_32_lt _))
    (mod_two_pow_32_lt _)

theorem subImmWord_lt (v : Int) (r : Nat) : subImmWord v r < 2 ^ 32 :=
  Nat.or_lt_two_pow (Nat.or_lt_two_pow (by decide) (mod_two_pow_32_lt _))
    (mod_two_pow_32_lt _)

theorem addRegWord_lt (t r : Nat) : addRegWord t r < 2 ^ 32 :=
  Nat.or_lt_two_pow (Nat.or_lt_two_pow (by decide) (mod_two_pow_32_lt _))
    (mod_two_pow_32_lt _)

theorem subRegWord_lt (t r : Nat) : subRegWord t r < 2 ^ 32 :=
  Nat.or_lt_two_pow (Nat.or_lt_two_pow (by decide) (mod_two_pow_32_lt _))
    (mod_two_pow_32_lt _)

theorem Uint32_code (asm : Asm) (w : Nat) (hw : w < 2 ^ 32) :
    (Uint32 asm w).code = asm.code ++ [w] := by
  unfold Uint32
  rw [Nat.mod_eq_of_lt hw]

theorem Uint32_hwRegs (asm : Asm) (w : Nat) : (Uint32 asm w).hwRegs = asm.hwRegs := rfl

theorem emitted_Uint32 (asm : Asm) (w : Nat) (hw : w < 2 ^ 32) :
    emitted asm (Uint32 asm w) = [w] := by
  simp [emitted, Uint32_code asm w hw]

theorem add_const_small (B : Bridge) (asm : Asm) (z : Reg) (v : Int)
    (h0 : 0 < v) (h1 : v < 4096) :
    add_const B asm z v = (true, Uint32 asm (addImmWord v (B.lo asm z))) := by
  have hu : toUint64 v < 4096 := by unfold toUint64; omega
  have hne : v ≠ 0 := by omega
  simp [add_const, hu, hne]

theorem sub_const_small (B : Bridge) (asm : Asm) (z : Reg) (v : Int)
    (h0 : 0 < v) (h1 : v < 4096) :
    sub_const B asm z v = (true, Uint32 asm (subImmWord v (B.lo asm z))) := by
  have hu : toUint64 v < 4096 := by unfold toUint64; omega
  have hne : v ≠ 0 := by omega
  simp [sub_const, hu, hne]

theorem add_const_none (B : Bridge) (asm : Asm) (z : Reg) (v : Int)
    (h : isInt64 v) (hv : v < 0 ∨ 4096 ≤ v) : add_const B asm z v = (false, asm) := by
  have hu := toUint64_large v h hv
  have hne : v ≠ 0 := by omega
  simp [add_const, hu, hne]

theorem sub_const_none (B : Bridge) (asm : Asm) (z : Reg) (v : Int)
    (h : isInt64 v) (hv : v < 0 ∨ 4096 ≤ v) : sub_const B asm z v = (false, asm) := by
  have hu := toUint64_large v h hv
  have hne : v ≠ 0 := by omega
  simp [sub_const, hu, hne]

theorem run_addImm (n r : Nat) (hn : n < 4096) (hr : r < 32) (regs : RegFile) :
    run [addImmWord (n : Int) r] regs = some (xset regs r (wrap64 (regs r + n))) := by
  simp [run, addImmWord_eq n r hn hr, decode_addImm n r hn hr, exec]

theorem run_subImm (n r : Nat) (hn : n < 4096) (hr : r < 32) (regs : RegFile) :
    run [subImmWord (n : Int) r] regs = some (xset regs r (wrap64 (regs r - n))) := by
  simp [run, subImmWord_eq n r hn hr, decode_subImm n r hn hr, exec]

/-! ## C4 : `Add` of a small constant -/

/-- C4, counterexample : on the constant `0`, which lies in `0 ≤ v < 4096`,
`Add(x0, Const 0)` started from the empty context leaves the stream empty; no
word at all is appended. -/
theorem Add_const_zero_appends_no_word :
    (Add refBridge asm0 ⟨0⟩ (.const ⟨0, 0⟩)).code = [] ∧
    ¬ ∃ w, (Add refBridge asm0 ⟨0⟩ (.const ⟨0, 0⟩)).code = asm0.code ++ [w] := by
  have h : Add refBridge asm0 ⟨0⟩ (.const ⟨0, 0⟩) = asm0 := by simp [Add, add_const]
  rw [h]
  simp [asm0]

/-- C4, amended : for every context, register `z` and constant `0 < v < 4096`,
`Add(z, Const v)` appends exactly one word, `0x91<<24 | v<<10 | lo(z)*0x21`,
and acquires no register; with a 5-bit encoding `lo(z) < 32` that word is the
instruction `add xz, xz, $v`, which replaces the content of `xz` by `xz + v`
modulo `2^64` and touches no other register. -/
theorem Add_small_const_one_add_imm (B : Bridge) (asm : Asm) (z : Reg) (k : Kind) (v : Int)
    (h0 : 0 < v) (h1 : v < 4096) :
    Add B asm z (.const ⟨k, v⟩) = Uint32 asm (addImmWord v (B.lo asm z)) ∧
    (Add B asm z (.const ⟨k, v⟩)).code = asm.code ++ [addImmWord v (B.lo asm z)] ∧
    (Add B asm z (.const ⟨k, v⟩)).hwRegs = asm.hwRegs ∧
    (B.lo asm z < 32 →
      decode (addImmWord v (B.lo asm z))
        = some (.add_imm (B.lo asm z) (B.lo asm z) v.toNat) ∧
      ∀ regs : RegFile, ∃ regs',
        run (emitted asm (Add B asm z (.const ⟨k, v⟩))) regs = some regs' ∧
        regs' (B.lo asm z) = wrap64 (regs (B.lo asm z) + v) ∧
        ∀ i, i ≠ B.lo asm z → regs' i = regs i) := by
  have hA : Add B asm z (.const ⟨k, v⟩) = Uint32 asm (addImmWord v (B.lo asm z)) := by
    simp [Add, add_const_small B asm z v h0 h1]
  refine ⟨hA, ?_, ?_, ?_⟩
  · rw [hA, Uint32_code _ _ (addImmWord_lt _ _)]
  · rw [hA, Uint32_hwRegs]
  · intro hr
    obtain ⟨n, rfl⟩ : ∃ n : Nat, v = n := ⟨v.toNat, by omega⟩
    have hn : n < 4096 := by omega
    refine ⟨?_, ?_⟩
    · rw [addImmWord_eq n _ hn hr, decode_addImm n _ hn hr]; simp
    · intro regs
      rw [hA, emitted_Uint32 _ _ (addImmWord_lt _ _), run_addImm n _ hn hr]
      exact ⟨_, rfl, by simp [xset], fun i hi => by simp [xset, hi]⟩

/-- Witness of C4 (amended) : `Add(x0, Const 5)` from the empty context. -/
theorem Add_small_const_one_add_imm_witness :
    (Add refBridge asm0 ⟨0⟩ (.const ⟨0, 5⟩)).code = [0x91001400] ∧
    decode 0x91001400 = some (.add_imm 0 0 5) := by
  obtain ⟨_, h2, _, h4⟩ :=
    Add_small_const_one_add_imm refBridge asm0 ⟨0⟩ 0 5 (by decide) (by decide)
  have e : addImmWord 5 (refBridge.lo asm0 ⟨0⟩) = 0x91001400 := by decide
  rw [e] at h2 h4
  exact ⟨h2, (h4 (by decide)).1⟩

/-! ## C5 : layout of the immediate words -/

theorem imm_layout_eq (base n r : Nat) (hb : 2 ^ 22 ∣ base) (hn : n < 4096) (hr : r < 32) :
    base ||| n <<< 10 ||| r <<< 5 ||| r = base + n * 1024 + r * 33 := by
  have h1 : n <<< 10 = n * 1024 := by rw [Nat.shiftLeft_eq]
  have h2 : r <<< 5 = r * 32 := by rw [Nat.shiftLeft_eq]
  have e1 : base ||| n * 1024 = base + n * 1024 :=
    or_eq_add_of_dvd _ _ 22 hb (by omega)
  have e2 : base + n * 1024 ||| r * 32 = base + n * 1024 + r * 32 :=
    or_eq_add_of_dvd _ _ 10 (by omega) (by omega)
  rw [h1, h2, e1, e2, or_eq_add_of_dvd _ _ 5 (by omega) (by omega)]
  omega

theorem imm_fields (top n r : Nat) (ht : top < 256) (hn : n < 4096) (hr : r < 32) :
    field (top * 2 ^ 24 + n * 1024 + r * 33) 24 8 = top ∧
    field (top * 2 ^ 24 + n * 1024 + r * 33) 22 2 = 0 ∧
    field (top * 2 ^ 24 + n * 1024 + r * 33) 10 12 = n ∧
    field (top * 2 ^ 24 + n * 1024 + r * 33) 5 5 = r ∧
    field (top * 2 ^ 24 + n * 1024 + r * 33) 0 5 = r := by
  refine ⟨?_, ?_, ?_, ?_, ?_⟩
  · exact field_of_parts _ 24 8 0 top (n * 1024 + r * 33) (by omega) (by omega) (by omega)
  · exact field_of_parts _ 22 2 top 0 (n * 1024 + r * 33) (by omega) (by omega) (by omega)
  · exact field_of_parts _ 10 12 (top * 4) n (r * 33) (by omega) (by omega) (by omega)
  · exact field_of_parts _ 5 5 (top * 2 ^ 14 + n) r r (by omega) (by omega) (by omega)
  · exact field_of_parts _ 0 5 (top * 2 ^ 19 + n * 32 + r) r 0 (by omega) (by omega)
      (by omega)

/-- C5 : for a register `z` with 5-bit encoding `r = lo(z) < 32` and
`0 < v < 4096`, `add_const` emits the word `0x91000000 | v<<10 | r<<5 | r` and
`sub_const` the word `0xd1000000 | v<<10 | r<<5 | r`, and report success; the
fields are disjoint: the top byte of the word is `0x91` (resp. `0xd1`), bits
22..23 are zero, bits 10..21 hold `v`, bits 5..9 and bits 0..4 hold `r`.  With
`lo(z) = 0`, `Add(z, Const 5)` appends the single word `0x91001400`, whose
immediate field is `5`. -/
theorem imm_words_layout (B : Bridge) (asm : Asm) (z : Reg) (k : Kind) (v : Int)
    (hr : B.lo asm z < 32) (h0 : 0 < v) (h1 : v < 4096) :
    add_const B asm z v
      = (true, { asm with code := asm.code ++
          [0x91000000 ||| v.toNat <<< 10 ||| B.lo asm z <<< 5 ||| B.lo asm z] }) ∧
    sub_const B asm z v
      = (true, { asm with code := asm.code ++
          [0xd1000000 ||| v.toNat <<< 10 ||| B.lo asm z <<< 5 ||| B.lo asm z] }) ∧
    addImmWord v (B.lo asm z)
      = 0x91000000 ||| v.toNat <<< 10 ||| B.lo asm z <<< 5 ||| B.lo asm z ∧
    subImmWord v (B.lo asm z)
      = 0xd1000000 ||| v.toNat <<< 10 ||| B.lo asm z <<< 5 ||| B.lo asm z ∧
    (field (addImmWord v (B.lo asm z)) 24 8 = 0x91 ∧
      field (addImmWord v (B.lo asm z)) 22 2 = 0 ∧
      field (addImmWord v (B.lo asm z)) 10 12 = v.toNat ∧
      field (addImmWord v (B.lo asm z)) 5 5 = B.lo asm z ∧
      field (addImmWord v (B.lo asm z)) 0 5 = B.lo asm z) ∧
    (field (subImmWord v (B.lo asm z)) 24 8 = 0xd1 ∧
      field (subImmWord v (B.lo asm z)) 22 2 = 0 ∧
      field (subImmWord v (B.lo asm z)) 10 12 = v.toNat ∧
      field (subImmWord v (B.lo asm z)) 5 5 = B.lo asm z ∧
      field (subImmWord v (B.lo asm z)) 0 5 = B.lo asm z) ∧
    (B.lo asm z = 0 →
      (Add B asm z (.const ⟨k, 5⟩)).code = asm.code ++ [0x91001400] ∧
      field 0x91001400 10 12 = 5) := by
  obtain ⟨n, rfl⟩ : ∃ n : Nat, v = n := ⟨v.toNat, by omega⟩
  have hn : n < 4096 := by omega
  have hnat : (n : Int).toNat = n := by simp
  have fa := imm_fields 0x91 n (B.lo asm z) (by decide) hn hr
  have fs := imm_fields 0xd1 n (B.lo asm z) (by decide) hn hr
  have ua : Uint32 asm (addImmWord n (B.lo asm z))
      = { asm with code := asm.code ++ [addImmWord n (B.lo asm z)] } := by
    unfold Uint32; rw [Nat.mod_eq_of_lt (addImmWord_lt _ _)]
  have us : Uint32 asm (subImmWord n (B.lo asm z))
      = { asm with code := asm.code ++ [subImmWord n (B.lo asm z)] } := by
    unfold Uint32; rw [Nat.mod_eq_of_lt (subImmWord_lt _ _)]
  rw [hnat, add_const_small B asm z n h0 h1, sub_const_small B asm z n h0 h1, ua, us,
    imm_layout_eq 0x91000000 n _ (by decide) hn hr,
    imm_layout_eq 0xd1000000 n _ (by decide) hn hr,
    addImmWord_eq n _ hn hr, subImmWord_eq n _ hn hr]
  refine ⟨rfl, rfl, rfl, rfl, fa, fs, ?_⟩
  intro hz
  have hA : Add B asm z (.const ⟨k, 5⟩) = Uint32 asm (addImmWord 5 (B.lo asm z)) := by
    simp [Add, add_const_small B asm z 5 (by decide) (by decide)]
  have e : addImmWord 5 0 = 0x91001400 := by decide
  rw [hA, hz, e]
  exact ⟨Uint32_code _ _ (by decide), by decide⟩

/-- Witness of C5 : the register `x3` and the constant `5`. -/
theorem imm_words_layout_witness :
    add_const refBridge asm0 ⟨3⟩ 5 = (true, ⟨[0x91001463], []⟩) ∧
    sub_const refBridge asm0 ⟨3⟩ 5 = (true, ⟨[0xd1001463], []⟩) := by
  obtain ⟨h1, h2, _⟩ :=
    imm_words_layout refBridge asm0 ⟨3⟩ 0 5 (by decide) (by decide) (by decide)
  exact ⟨h1.trans (by decide), h2.trans (by decide)⟩

/-! ## C6 : constants outside the immediate range -/

theorem wrap64_neg_large (v : Int) (h : isInt64 v) (hbig : v ≤ -4096 ∨ 4096 ≤ v) :
    isInt64 (wrap64 (-v)) ∧ (wrap64 (-v) < 0 ∨ 4096 ≤ wrap64 (-v)) := by
  unfold isInt64 at *
  unfold wrap64
  omega

/-- C6 : an immediate word is emitted only for a value in `[0, 4096)`: when
`add_const` or `sub_const` changes the stream on an `int64` value `w`, then
`0 < w < 4096`.  For an `int64` constant `v` with `|v| ≥ 4096` (so also for
`v = -2^63`, whose negation wraps to itself) neither helper emits or succeeds,
on `v` or on the wrapped `-v`, and `Add(z, Const v)` and `Sub(z, Const v)` are
their general paths: `hwAlloc` on the constant, exactly one word
`0x8b<<24 | lo(tmp)<<16 | lo(z)*0x21` (resp. `0xcb<<24 | ...`) appended to the
context `hwAlloc` returned, then `hwFree` of `tmp` with the flag of
`hwAlloc`. -/
theorem large_const_takes_general_path (B : Bridge) (asm : Asm) (z : Reg) (k : Kind)
    (v : Int) (hv : isInt64 v) (hbig : v ≤ -4096 ∨ 4096 ≤ v) :
    (∀ w : Int, isInt64 w →
      ((add_const B asm z w).2 ≠ asm ∨ (sub_const B asm z w).2 ≠ asm) →
      0 < w ∧ w < 4096) ∧
    add_const B asm z v = (false, asm) ∧
    sub_const B asm z (wrap64 (-v)) = (false, asm) ∧
    sub_const B asm z v = (false, asm) ∧
    add_const B asm z (wrap64 (-v)) = (false, asm) ∧
    Add B asm z (.const ⟨k, v⟩)
      = B.hwFree
          (Uint32 (B.hwAlloc asm (.const ⟨k, v⟩)).2.2
            (0x8b <<< 24 ||| (B.hwLo (B.hwAlloc asm (.const ⟨k, v⟩)).1 <<< 16) % 2 ^ 32
              ||| (B.lo (B.hwAlloc asm (.const ⟨k, v⟩)).2.2 z * 0x21) % 2 ^ 32))
          (B.hwAlloc asm (.const ⟨k, v⟩)).1 (B.hwAlloc asm (.const ⟨k, v⟩)).2.1 ∧
    Sub B asm z (.const ⟨k, v⟩)
      = B.hwFree
          (Uint32 (B.hwAlloc asm (.const ⟨k, v⟩)).2.2
            (0xcb <<< 24 ||| (B.hwLo (B.hwAlloc asm (.const ⟨k, v⟩)).1 <<< 16) % 2 ^ 32
              ||| (B.lo (B.hwAlloc asm (.const ⟨k, v⟩)).2.2 z * 0x21) % 2 ^ 32))
          (B.hwAlloc asm (.const ⟨k, v⟩)).1 (B.hwAlloc asm (.const ⟨k, v⟩)).2.1 ∧
    (∀ (asm1 : Asm) (t r : Nat),
      emitted asm1 (Uint32 asm1 (addRegWord t r)) = [addRegWord t r] ∧
      emitted asm1 (Uint32 asm1 (subRegWord t r)) = [subRegWord t r]) := by
  have hneg := wrap64_neg_large v hv hbig
  have hv' : v < 0 ∨ 4096 ≤ v := by omega
  have a1 := add_const_none B asm z v hv hv'
  have s1 := sub_const_none B asm z v hv hv'
  have a2 := add_const_none B asm z _ hneg.1 hneg.2
  have s2 := sub_const_none B asm z _ hneg.1 hneg.2
  refine ⟨?_, a1, s2, s1, a2, ?_, ?_, ?_⟩
  · intro w hw hch
    by_cases hw0 : w = 0
    · subst hw0
      simp [add_const, sub_const] at hch
    · by_cases hlarge : w < 0 ∨ 4096 ≤ w
      · rw [add_const_none B asm z w hw hlarge, sub_const_none B asm z w hw hlarge] at hch
        simp at hch
      · omega
  · simp only [Add, a1, s2, addReg, addRegWord]
  · simp only [Sub, a2, s1, subReg, subRegWord]
  · intro asm1 t r
    exact ⟨emitted_Uint32 _ _ (addRegWord_lt t r), emitted_Uint32 _ _ (subRegWord_lt t r)⟩

/-- Witness of C6 : the constant `-2^63`, whose negation wraps to itself. -/
theorem large_const_takes_general_path_witness :
    add_const refBridge asm0 ⟨0⟩ (-2 ^ 63) = (false, asm0) ∧
    sub_const refBridge asm0 ⟨0⟩ (wrap64 (-(-2 ^ 63))) = (false, asm0) ∧
    wrap64 (-(-2 ^ 63)) = -2 ^ 63 := by
  obtain ⟨_, h1, h2, _⟩ := large_const_takes_general_path refBridge asm0 ⟨0⟩ 0 (-2 ^ 63)
    (by decide) (by decide)
  exact ⟨h1, h2, by decide⟩

/-! ## C7 : `Sub` mirrors `Add` on small constants -/

/-- C7 : for every context, register `z` and constant `v` with `0 < |v| < 4096`,
`Sub(z, Const v)` and `Add(z, Const -v)` return the same context, the given one
with a single immediate word appended: `sub xz, xz, $v` when `v > 0`, emitted
by `sub_const` while `add_const` on `-v` emits nothing and fails, and
`add xz, xz, $-v` when `v < 0`, emitted by `add_const` while `sub_const` on `v`
emits nothing and fails.  With a 5-bit encoding `lo(z) < 32` the word replaces
the content of `xz` by `xz - v` modulo `2^64` and touches no other register. -/
theorem Sub_const_mirrors_Add (B : Bridge) (asm : Asm) (z : Reg) (k : Kind) (v : Int)
    (hne : v ≠ 0) (hlo : -4096 < v) (hhi : v < 4096) :
    Sub B asm z (.const ⟨k, v⟩) = Add B asm z (.const ⟨k, -v⟩) ∧
    (0 < v →
      sub_const B asm z v = (true, Uint32 asm (subImmWord v (B.lo asm z))) ∧
      add_const B asm z (-v) = (false, asm) ∧
      emitted asm (Sub B asm z (.const ⟨k, v⟩)) = [subImmWord v (B.lo asm z)] ∧
      emitted asm (Add B asm z (.const ⟨k, -v⟩)) = [subImmWord v (B.lo asm z)]) ∧
    (v < 0 →
      sub_const B asm z v = (false, asm) ∧
      add_const B asm z (-v) = (true, Uint32 asm (addImmWord (-v) (B.lo asm z))) ∧
      emitted asm (Sub B asm z (.const ⟨k, v⟩)) = [addImmWord (-v) (B.lo asm z)] ∧
      emitted asm (Add B asm z (.const ⟨k, -v⟩)) = [addImmWord (-v) (B.lo asm z)]) ∧
    (B.lo asm z < 32 → ∀ regs : RegFile, ∃ regs',
      run (emitted asm (Sub B asm z (.const ⟨k, v⟩))) regs = some regs' ∧
      regs' (B.lo asm z) = wrap64 (regs (B.lo asm z) - v) ∧
      ∀ i, i ≠ B.lo asm z → regs' i = regs i) := by
  have hw1 : wrap64 (-v) = -v := wrap64_of_isInt64 _ (by unfold isInt64; omega)
  have hw2 : wrap64 v = v := wrap64_of_isInt64 _ (by unfold isInt64; omega)
  rcases Int.lt_or_gt_of_ne hne with hneg | hpos
  · -- `v < 0`
    have s1 := sub_const_none B asm z v (by unfold isInt64; omega) (Or.inl hneg)
    have a1 := add_const_small B asm z (-v) (by omega) (by omega)
    have hS : Sub B asm z (.const ⟨k, v⟩) = Uint32 asm (addImmWord (-v) (B.lo asm z)) := by
      simp [Sub, s1, hw1, a1]
    have hA : Add B asm z (.const ⟨k, -v⟩) = Uint32 asm (addImmWord (-v) (B.lo asm z)) := by
      simp [Add, a1]
    have hE := emitted_Uint32 asm _ (addImmWord_lt (-v) (B.lo asm z))
    refine ⟨by rw [hS, hA], fun h => by omega, fun _ => ⟨s1, a1, ?_, ?_⟩, ?_⟩
    · rw [hS, hE]
    · rw [hA, hE]
    · intro hr regs
      obtain ⟨n, hn⟩ : ∃ n : Nat, -v = n := ⟨(-v).toNat, by omega⟩
      have hn' : n < 4096 := by omega
      rw [hS, hE, hn, run_addImm n _ hn' hr]
      refine ⟨_, rfl, ?_, fun i hi => by simp [xset, hi]⟩
      have e : regs (B.lo asm z) - v = regs (B.lo asm z) + (n : Int) := by omega
      simp [xset, e]
  · -- `0 < v`
    have s1 := sub_const_small B asm z v hpos hhi
    have a1 := add_const_none B asm z (-v) (by unfold isInt64; omega) (Or.inl (by omega))
    have hS : Sub B asm z (.const ⟨k, v⟩) = Uint32 asm (subImmWord v (B.lo asm z)) := by
      simp [Sub, s1]
    have hA : Add B asm z (.const ⟨k, -v⟩) = Uint32 asm (subImmWord v (B.lo asm z)) := by
      simp [Add, a1, hw2, s1]
    have hE := emitted_Uint32 asm _ (subImmWord_lt v (B.lo asm z))
    refine ⟨by rw [hS, hA], fun _ => ⟨s1, a1, ?_, ?_⟩, fun h => by omega, ?_⟩
    · rw [hS, hE]
    · rw [hA, hE]
    · intro hr regs
      obtain ⟨n, hn⟩ : ∃ n : Nat, v = n := ⟨v.toNat, by omega⟩
      have hn' : n < 4096 := by omega
      rw [hS, hE, hn, run_subImm n _ hn' hr]
      exact ⟨_, rfl, by simp [xset], fun i hi => by simp [xset, hi]⟩

/-- Witness of C7 : `Sub(x1, Const 7)` and `Add(x1, Const -7)` both append
`sub x1, x1, $7`. -/
theorem Sub_const_mirrors_Add_witness :
    Sub refBridge asm0 ⟨1⟩ (.const ⟨0, 7⟩) = Add refBridge asm0 ⟨1⟩ (.const ⟨0, -7⟩) ∧
    emitted asm0 (Sub refBridge asm0 ⟨1⟩ (.const ⟨0, 7⟩)) = [0xd1001c21] := by
  obtain ⟨h1, h2, _⟩ :=
    Sub_const_mirrors_Add refBridge asm0 ⟨1⟩ 0 7 (by decide) (by decide) (by decide)
  exact ⟨h1, (h2 (by decide)).2.2.1.trans (by decide)⟩

/-! ## C8 : `Mul` by the constant `2` -/

theorem reg_layout_eq (base t r : Nat) (hb : 2 ^ 21 ∣ base) (ht : t < 32) (hr : r < 32) :
    base ||| t <<< 16 ||| r <<< 5 ||| r = base + t * 65536 + r * 33 := by
  have h1 : t <<< 16 = t * 65536 := by rw [Nat.shiftLeft_eq]
  have h2 : r <<< 5 = r * 32 := by rw [Nat.shiftLeft_eq]
  have e1 : base ||| t * 65536 = base + t * 65536 :=
    or_eq_add_of_dvd _ _ 21 hb (by omega)
  have e2 : base + t * 65536 ||| r * 32 = base + t * 65536 + r * 32 :=
    or_eq_add_of_dvd _ _ 16 (by omega) (by omega)
  rw [h1, h2, e1, e2, or_eq_add_of_dvd _ _ 5 (by omega) (by omega)]
  omega

theorem run_addReg (t r : Nat) (ht : t < 31) (hr : r < 31) (regs : RegFile) :
    run [addRegWord t r] regs = some (xwrite regs r (wrap64 (regs r + regs t))) := by
  have h1 : r ≠ 31 := by omega
  have h2 : t ≠ 31 := by omega
  simp [run, addRegWord_eq t r (by omega) (by omega),
    decode_addReg t r (by omega) (by omega), exec, xread, h1, h2]

/-- C8 : for every context and register `z`, `Mul(z, Const 2)` is
`Add(z, z)`.  When the bridge lends the register operand `z` as it is
(`hwAlloc` returns the register of `z`, not to be released, without touching
the context, and `hwFree` with a false flag does nothing), the call appends
the single word `0x8b000000 | r<<16 | r<<5 | r` with `r = lo(z)` in the three
register fields, `r < 31` being the encoding of a general register: it decodes
to `add xz, xz, xz`, not to a multiply, no register is acquired, and it leaves
in `xz` the value `z + z`, which is `2 * z` modulo `2^64`, every other register
unchanged. -/
theorem Mul_two_is_self_add (B : Bridge) (asm : Asm) (z : Reg) (k : Kind) :
    Mul B asm z (.const ⟨k, 2⟩) = Add B asm z (.reg z) ∧
    (∀ t : hwReg, B.hwAlloc asm (.reg z) = (t, false, asm) → B.hwLo t = B.lo asm z →
      (∀ a : Asm, B.hwFree a t false = a) → B.lo asm z < 31 →
      emitted asm (Mul B asm z (.const ⟨k, 2⟩))
        = [0x8b000000 ||| B.lo asm z <<< 16 ||| B.lo asm z <<< 5 ||| B.lo asm z] ∧
      decode (0x8b000000 ||| B.lo asm z <<< 16 ||| B.lo asm z <<< 5 ||| B.lo asm z)
        = some (.add (B.lo asm z) (B.lo asm z) (B.lo asm z)) ∧
      (Mul B asm z (.const ⟨k, 2⟩)).hwRegs = asm.hwRegs ∧
      ∀ regs : RegFile, ∃ regs',
        run (emitted asm (Mul B asm z (.const ⟨k, 2⟩))) regs = some regs' ∧
        regs' (B.lo asm z) = wrap64 (regs (B.lo asm z) + regs (B.lo asm z)) ∧
        regs' (B.lo asm z) = wrap64 (2 * regs (B.lo asm z)) ∧
        ∀ i, i ≠ B.lo asm z → regs' i = regs i) := by
  have hM : Mul B asm z (.const ⟨k, 2⟩) = Add B asm z (.reg z) := by simp [Mul]
  refine ⟨hM, ?_⟩
  intro t hal hlo hfree hr
  have hA : Add B asm z (.reg z) = Uint32 asm (addRegWord (B.lo asm z) (B.lo asm z)) := by
    simp [Add, addReg, hal, hlo, hfree]
  have hE := emitted_Uint32 asm _ (addRegWord_lt (B.lo asm z) (B.lo asm z))
  have hW : 0x8b000000 ||| B.lo asm z <<< 16 ||| B.lo asm z <<< 5 ||| B.lo asm z
      = addRegWord (B.lo asm z) (B.lo asm z) := by
    rw [reg_layout_eq _ _ _ (by decide) (by omega) (by omega),
      addRegWord_eq _ _ (by omega) (by omega)]
  rw [hM, hA, hE, hW]
  refine ⟨rfl, ?_, rfl, ?_⟩
  · rw [addRegWord_eq _ _ (by omega) (by omega), decode_addReg _ _ (by omega) (by omega)]
  · intro regs
    have h31 : B.lo asm z ≠ 31 := by omega
    rw [run_addReg _ _ hr hr]
    refine ⟨_, rfl, by simp [xwrite, h31], ?_, fun i hi => by simp [xwrite, hi]⟩
    have e : regs (B.lo asm z) + regs (B.lo asm z) = 2 * regs (B.lo asm z) := by ring
    simp [xwrite, h31, e]

/-- Witness of C8 : `Mul(x3, Const 2)` from the empty context appends
`add x3, x3, x3`. -/
theorem Mul_two_is_self_add_witness :
    emitted asm0 (Mul refBridge asm0 ⟨3⟩ (.const ⟨0, 2⟩)) = [0x8b030063] ∧
    decode 0x8b030063 = some (.add 3 3 3) := by
  obtain ⟨h1, h2, _⟩ := (Mul_two_is_self_add refBridge asm0 ⟨3⟩ 0).2 ⟨3⟩ rfl rfl
    (fun _ => rfl) (by decide)
  have e : 0x8b000000 ||| refBridge.lo asm0 ⟨3⟩ <<< 16 ||| refBridge.lo asm0 ⟨3⟩ <<< 5
      ||| refBridge.lo asm0 ⟨3⟩ = 0x8b030063 := by decide
  rw [e] at h1 h2
  exact ⟨h1, by rw [h2]; rfl⟩

/-! ## C9 : `Mul` by the constant `0` -/

/-- C9 : for every context and register `z`, `Mul(z, Const 0)` is
`LoadConst(z, 0)`: the words appended are those of the load-constant primitive
and nothing else (no multiply word), the acquired registers are those it
leaves (none is acquired for the operand), and under every execution semantics
for which the words of `LoadConst(z, 0)` leave `0` in `xz`, whatever the prior
register file, so do the words of `Mul(z, Const 0)`. -/
theorem Mul_zero_is_LoadConst (B : Bridge) (asm : Asm) (z : Reg) (k : Kind) :
    Mul B asm z (.const ⟨k, 0⟩) = B.LoadConst asm z 0 ∧
    emitted asm (Mul B asm z (.const ⟨k, 0⟩)) = emitted asm (B.LoadConst asm z 0) ∧
    (Mul B asm z (.const ⟨k, 0⟩)).hwRegs = (B.LoadConst asm z 0).hwRegs ∧
    ∀ sem : List Nat → RegFile → Option RegFile,
      (∀ regs, ∃ regs', sem (emitted asm (B.LoadConst asm z 0)) regs = some regs' ∧
        regs' (B.lo asm z) = 0) →
      ∀ regs, ∃ regs', sem (emitted asm (Mul B asm z (.const ⟨k, 0⟩))) regs = some regs' ∧
        regs' (B.lo asm z) = 0 := by
  have hM : Mul B asm z (.const ⟨k, 0⟩) = B.LoadConst asm z 0 := by simp [Mul]
  rw [hM]
  exact ⟨rfl, rfl, rfl, fun _ h => h⟩

/-- Witness of C9 : with the reference collaborators, whose `LoadConst(x3, 0)`
is the word `movz x3, $0`, running `Mul(x3, Const 0)` on a register file that
holds `7` everywhere leaves `0` in `x3`. -/
theorem Mul_zero_is_LoadConst_witness :
    ∃ regs', run (emitted asm0 (Mul refBridge asm0 ⟨3⟩ (.const ⟨0, 0⟩))) (fun _ => 7)
        = some regs' ∧
      regs' 3 = 0 := by
  refine (Mul_zero_is_LoadConst refBridge asm0 ⟨3⟩ 0).2.2.2 run ?_ (fun _ => 7)
  intro regs
  have e : emitted asm0 (refBridge.LoadConst asm0 ⟨3⟩ 0) = [0xd2800003] := by decide
  have d : decode 0xd2800003 = some (.movz 3 0) := by decide
  rw [e]
  refine ⟨exec (.movz 3 0) regs, by simp only [run, d], ?_⟩
  simp [exec, xwrite, refBridge]

/-! ## C10 : `Rem` by a power of two is an AND -/

theorem andPred_two_pow (k : Nat) (hk : k ≤ 62) : andPred (2 ^ k) = 0 := by
  have hp : (2 : Nat) ^ k ≤ 2 ^ 62 := Nat.pow_le_pow_right (by decide) hk
  have hp0 : 0 < (2 : Nat) ^ k := Nat.two_pow_pos k
  have e1 : ((2 : Int) ^ k - 1) = ((2 ^ k - 1 : Nat) : Int) := by
    rw [Int.ofNat_sub hp0]; simp
  have e2 : ((2 : Int) ^ k) = ((2 ^ k : Nat) : Int) := by simp
  unfold andPred
  rw [e1, e2, toUint64_ofNat _ (by omega), toUint64_ofNat _ (by omega),
    Nat.and_pow_two_sub_one_eq_mod, Nat.mod_self]

/-- C10 : for every context, register `z`, kind tag and constant `v = 2^k`
with `k ≤ 62` (the positive powers of two of `int64`), `Rem(z, Const{kind, v})`
is `And(z, Const{kind, v-1})`, the kind tag kept, whatever the collaborators
do: `Rem` itself appends no word (no `sdiv`, no `msub`) and calls neither
`hwAlloc` nor `Alloc`.  In particular `Rem(z, Const 8)` is `And(z, Const 7)`. -/
theorem Rem_pow2_is_And (B : Bridge) (asm : Asm) (z : Reg) (kind : Kind) (k : Nat)
    (hk : k ≤ 62) :
    Rem B asm z (.const ⟨kind, 2 ^ k⟩) = B.And asm z (.const ⟨kind, 2 ^ k - 1⟩) ∧
    emitted asm (Rem B asm z (.const ⟨kind, 2 ^ k⟩))
      = emitted asm (B.And asm z (.const ⟨kind, 2 ^ k - 1⟩)) ∧
    Rem B asm z (.const ⟨kind, 8⟩) = B.And asm z (.const ⟨kind, 7⟩) := by
  have hp : (2 : Int) ^ k ≤ 2 ^ 62 := by
    have : (2 : Nat) ^ k ≤ 2 ^ 62 := Nat.pow_le_pow_right (by decide) hk
    exact_mod_cast this
  have hp0 : (0 : Int) < 2 ^ k := by positivity
  have hne : (2 : Int) ^ k ≠ 0 := by omega
  have hw : wrap64 (2 ^ k - 1) = 2 ^ k - 1 :=
    wrap64_of_isInt64 _ (by unfold isInt64; omega)
  have hR : Rem B asm z (.const ⟨kind, 2 ^ k⟩) = B.And asm z (.const ⟨kind, 2 ^ k - 1⟩) := by
    simp only [Rem, hne, andPred_two_pow k hk, hw, if_true, if_false]
  have h8 : Rem B asm z (.const ⟨kind, 8⟩) = B.And asm z (.const ⟨kind, 7⟩) := by
    have a8 : andPred 8 = 0 := by decide
    have w7 : wrap64 7 = 7 := by decide
    simp [Rem, a8, w7]
  exact ⟨hR, by rw [hR], h8⟩

/-- Witness of C10 : `Rem(x1, Const 8)` is `And(x1, Const 7)`. -/
theorem Rem_pow2_is_And_witness :
    Rem refBridge asm0 ⟨1⟩ (.const ⟨0, 2 ^ 3⟩) = refBridge.And asm0 ⟨1⟩ (.const ⟨0, 2 ^ 3 - 1⟩) :=
  (Rem_pow2_is_And refBridge asm0 ⟨1⟩ 0 3 (by decide)).1

/-! ## Register-register words -/

theorem regWord_eq (H C t r : Nat) (hC : C < 64) (ht : t < 32) (hr : r < 32) :
    (H * 2 ^ 21 + C * 2 ^ 10) ||| (t <<< 16) % 2 ^ 32 ||| (r * 0x21) % 2 ^ 32
      = H * 2 ^ 21 + C * 2 ^ 10 + t * 65536 + r * 33 := by
  have h1 : (t <<< 16) % 2 ^ 32 = t * 65536 := by rw [Nat.shiftLeft_eq]; omega
  have h2 : (r * 0x21) % 2 ^ 32 = r * 33 := by omega
  have e0 : H * 2 ^ 21 + C * 2 ^ 10 = H * 2 ^ 21 ||| C * 2 ^ 10 :=
    (or_eq_add_of_dvd _ _ 21 ⟨H, by ring⟩ (by omega)).symm
  have e : H * 2 ^ 21 ||| C * 2 ^ 10 ||| t * 65536 ||| r * 33
      = H * 2 ^ 21 ||| t * 65536 ||| C * 2 ^ 10 ||| r * 33 := by ac_rfl
  have e1 : H * 2 ^ 21 ||| t * 65536 = H * 2 ^ 21 + t * 65536 :=
    or_eq_add_of_dvd _ _ 21 ⟨H, by ring⟩ (by omega)
  have e2 : H * 2 ^ 21 + t * 65536 ||| C * 2 ^ 10 = H * 2 ^ 21 + t * 65536 + C * 2 ^ 10 :=
    or_eq_add_of_dvd _ _ 16 (by omega) (by omega)
  have e3 : H * 2 ^ 21 + t * 65536 + C * 2 ^ 10 ||| r * 33
      = H * 2 ^ 21 + t * 65536 + C * 2 ^ 10 + r * 33 :=
    or_eq_add_of_dvd _ _ 10 (by omega) (by omega)
  rw [h1, h2, e0, e, e1, e2, e3]
  omega

theorem regWord_layout (H C t r : Nat) (hC : C < 64) (ht : t < 32) (hr : r < 32) :
    (H * 2 ^ 21 + C * 2 ^ 10) ||| t <<< 16 ||| r <<< 5 ||| r
      = H * 2 ^ 21 + C * 2 ^ 10 + t * 65536 + r * 33 := by
  have h1 : t <<< 16 = t * 65536 := by rw [Nat.shiftLeft_eq]
  have h2 : r <<< 5 = r * 32 := by rw [Nat.shiftLeft_eq]
  have e0 : H * 2 ^ 21 + C * 2 ^ 10 = H * 2 ^ 21 ||| C * 2 ^ 10 :=
    (or_eq_add_of_dvd _ _ 21 ⟨H, by ring⟩ (by omega)).symm
  have e : H * 2 ^ 21 ||| C * 2 ^ 10 ||| t * 65536 ||| r * 32 ||| r
      = H * 2 ^ 21 ||| t * 65536 ||| C * 2 ^ 10 ||| r * 32 ||| r := by ac_rfl
  have e1 : H * 2 ^ 21 ||| t * 65536 = H * 2 ^ 21 + t * 65536 :=
    or_eq_add_of_dvd _ _ 21 ⟨H, by ring⟩ (by omega)
  have e2 : H * 2 ^ 21 + t * 65536 ||| C * 2 ^ 10 = H * 2 ^ 21 + t * 65536 + C * 2 ^ 10 :=
    or_eq_add_of_dvd _ _ 16 (by omega) (by omega)
  have e3 : H * 2 ^ 21 + t * 65536 + C * 2 ^ 10 ||| r * 32
      = H * 2 ^ 21 + t * 65536 + C * 2 ^ 10 + r * 32 :=
    or_eq_add_of_dvd _ _ 10 (by omega) (by omega)
  have e4 : H * 2 ^ 21 + t * 65536 + C * 2 ^ 10 + r * 32 ||| r
      = H * 2 ^ 21 + t * 65536 + C * 2 ^ 10 + r * 32 + r :=
    or_eq_add_of_dvd _ _ 5 (by omega) (by omega)
  rw [h1, h2, e0, e, e1, e2, e3, e4]
  omega

theorem regWord_fields (H C t r : Nat) (hH : H < 2048) (hC : C < 64) (ht : t < 32)
    (hr : r < 32) :
    field (H * 2 ^ 21 + C * 2 ^ 10 + t * 65536 + r * 33) 21 11 = H ∧
    field (H * 2 ^ 21 + C * 2 ^ 10 + t * 65536 + r * 33) 16 5 = t ∧
    field (H * 2 ^ 21 + C * 2 ^ 10 + t * 65536 + r * 33) 10 6 = C ∧
    field (H * 2 ^ 21 + C * 2 ^ 10 + t * 65536 + r * 33) 5 5 = r ∧
    field (H * 2 ^ 21 + C * 2 ^ 10 + t * 65536 + r * 33) 0 5 = r := by
  refine ⟨?_, ?_, ?_, ?_, ?_⟩
  · exact field_of_parts _ 21 11 0 H (C * 2 ^ 10 + t * 65536 + r * 33)
      (by omega) (by omega) (by omega)
  · exact field_of_parts _ 16 5 H t (C * 2 ^ 10 + r * 33) (by omega) (by omega) (by omega)
  · exact field_of_parts _ 10 6 (H * 32 + t) C (r * 33) (by omega) (by omega) (by omega)
  · exact field_of_parts _ 5 5 (H * 2 ^ 11 + t * 64 + C) r r (by omega) (by omega) (by omega)
  · exact field_of_parts _ 0 5 (H * 2 ^ 16 + t * 2048 + C * 32 + r) r 0
      (by omega) (by omega) (by omega)

theorem subRegWord_eq (t r : Nat) (ht : t < 32) (hr : r < 32) :
    subRegWord t r = 0xcb000000 + t * 65536 + r * 33 := by
  have h := regWord_eq 0x658 0 t r (by omega) ht hr
  unfold subRegWord
  simpa using h

theorem mulWord_eq (t r : Nat) (ht : t < 32) (hr : r < 32) :
    mulWord t r = 0x9b007c00 + t * 65536 + r * 33 := by
  have h := regWord_eq 0x4d8 31 t r (by omega) ht hr
  unfold mulWord
  simpa using h

theorem quoWord_eq (t r : Nat) (ht : t < 32) (hr : r < 32) :
    quoWord t r = 0x9ac00c00 + t * 65536 + r * 33 := by
  have h := regWord_eq 0x4d6 3 t r (by omega) ht hr
  unfold quoWord
  simpa using h

theorem decode_subReg (t n d : Nat) (ht : t < 32) (hn : n < 32) (hd : d < 32) :
    decode (0xcb000000 + t * 65536 + n * 32 + d) = some (.sub d n t) := by
  have f0 := field_of_parts (0xcb000000 + t * 65536 + n * 32 + d) 22 10 0 0x32c
    (t * 65536 + n * 32 + d) (by omega) (by omega) (by omega)
  have f1 := field_of_parts (0xcb000000 + t * 65536 + n * 32 + d) 21 11 0 0x658
    (t * 65536 + n * 32 + d) (by omega) (by omega) (by omega)
  have f2 := field_of_parts (0xcb000000 + t * 65536 + n * 32 + d) 10 6 (0xcb00 + t) 0
    (n * 32 + d) (by omega) (by omega) (by omega)
  have f3 := field_of_parts (0xcb000000 + t * 65536 + n * 32 + d) 0 5
    (0x6580000 + t * 2048 + n) d 0 (by omega) (by omega) (by omega)
  have f4 := field_of_parts (0xcb000000 + t * 65536 + n * 32 + d) 5 5
    (0x32c000 + t * 64) n d (by omega) (by omega) (by omega)
  have f5 := field_of_parts (0xcb000000 + t * 65536 + n * 32 + d) 16 5 0x658 t
    (n * 32 + d) (by omega) (by omega) (by omega)
  simp [decode, f0, f1, f2, f3, f4, f5]

theorem decode_mul (t n d : Nat) (ht : t < 32) (hn : n < 32) (hd : d < 32) :
    decode (0x9b007c00 + t * 65536 + n * 32 + d) = some (.madd d n t 31) := by
  have f0 := field_of_parts (0x9b007c00 + t * 65536 + n * 32 + d) 22 10 0 0x26c
    (t * 65536 + 0x7c00 + n * 32 + d) (by omega) (by omega) (by omega)
  have f1 := field_of_parts (0x9b007c00 + t * 65536 + n * 32 + d) 21 11 0 0x4d8
    (t * 65536 + 0x7c00 + n * 32 + d) (by omega) (by omega) (by omega)
  have f2 := field_of_parts (0x9b007c00 + t * 65536 + n * 32 + d) 15 1 (0x9b00 + t) 0
    (0x7c00 + n * 32 + d) (by omega) (by omega) (by omega)
  have f3 := field_of_parts (0x9b007c00 + t * 65536 + n * 32 + d) 0 5
    (0x4d803e0 + t * 2048 + n) d 0 (by omega) (by omega) (by omega)
  have f4 := field_of_parts (0x9b007c00 + t * 65536 + n * 32 + d) 5 5
    (0x26c01f + t * 64) n d (by omega) (by omega) (by omega)
  have f5 := field_of_parts (0x9b007c00 + t * 65536 + n * 32 + d) 16 5 0x4d8 t
    (0x7c00 + n * 32 + d) (by omega) (by omega) (by omega)
  have f6 := field_of_parts (0x9b007c00 + t * 65536 + n * 32 + d) 10 5 (0x13600 + t * 2) 31
    (n * 32 + d) (by omega) (by omega) (by omega)
  simp [decode, f0, f1, f2, f3, f4, f5, f6]

theorem negWord_eq (r : Nat) (hr : r < 32) : negWord r = 0xcb000000 + r * 65536 + 31 * 32 + r := by
  unfold negWord
  have h3 : (r * 0x10001) % 2 ^ 32 = r * 65536 ||| r := by
    rw [or_eq_add_of_dvd _ _ 16 (by omega) (by omega)]; omega
  have h0 : (0xcb0003e0 : Nat) = 0xcb000000 ||| 0x3e0 := by decide
  have e : 0xcb000000 ||| 0x3e0 ||| (r * 65536 ||| r)
      = 0xcb000000 ||| r * 65536 ||| 0x3e0 ||| r := by ac_rfl
  have e1 : 0xcb000000 ||| r * 65536 = 0xcb000000 + r * 65536 :=
    or_eq_add_of_dvd _ _ 21 (by omega) (by omega)
  have e2 : 0xcb000000 + r * 65536 ||| 0x3e0 = 0xcb000000 + r * 65536 + 0x3e0 :=
    or_eq_add_of_dvd _ _ 16 (by omega) (by omega)
  rw [h3, h0, e, e1, e2, or_eq_add_of_dvd _ _ 5 (by omega) (by omega)]

theorem negWord_layout (r : Nat) (hr : r < 32) :
    0xcb0003e0 ||| r <<< 16 ||| r = 0xcb000000 + r * 65536 + 31 * 32 + r := by
  have h1 : r <<< 16 = r * 65536 := by rw [Nat.shiftLeft_eq]
  have h0 : (0xcb0003e0 : Nat) = 0xcb000000 ||| 0x3e0 := by decide
  have e : 0xcb000000 ||| 0x3e0 ||| r * 65536 ||| r
      = 0xcb000000 ||| r * 65536 ||| 0x3e0 ||| r := by ac_rfl
  have e1 : 0xcb000000 ||| r * 65536 = 0xcb000000 + r * 65536 :=
    or_eq_add_of_dvd _ _ 21 (by omega) (by omega)
  have e2 : 0xcb000000 + r * 65536 ||| 0x3e0 = 0xcb000000 + r * 65536 + 0x3e0 :=
    or_eq_add_of_dvd _ _ 16 (by omega) (by omega)
  rw [h1, h0, e, e1, e2, or_eq_add_of_dvd _ _ 5 (by omega) (by omega)]

theorem remSdiv_layout (d r q : Nat) (hd : d < 32) (hr : r < 32) (hq : q < 32) :
    0x9ac00c00 ||| d <<< 16 ||| r <<< 5 ||| q = 0x9ac00c00 + d * 65536 + r * 32 + q := by
  have h := remSdivWord_eq d r q hd hr hq
  unfold remSdivWord at h
  have h1 : (d <<< 16) % 2 ^ 32 = d <<< 16 := by rw [Nat.shiftLeft_eq]; omega
  have h2 : (r <<< 5) % 2 ^ 32 = r <<< 5 := by rw [Nat.shiftLeft_eq]; omega
  have h3 : q % 2 ^ 32 = q := by omega
  rw [h1, h2, h3] at h
  exact h

theorem remMsub_layout (d q r : Nat) (hd : d < 32) (hq : q < 32) (hr : r < 32) :
    0x9b008000 ||| d <<< 16 ||| r <<< 10 ||| q <<< 5 ||| r
      = 0x9b008000 + d * 65536 + r * 1024 + q * 32 + r := by
  have h1 : d <<< 16 = d * 65536 := by rw [Nat.shiftLeft_eq]
  have h2 : r <<< 10 = r * 1024 := by rw [Nat.shiftLeft_eq]
  have h3 : q <<< 5 = q * 32 := by rw [Nat.shiftLeft_eq]
  have h0 : (0x9b008000 : Nat) = 0x9b000000 ||| 0x8000 := by decide
  have e : 0x9b000000 ||| 0x8000 ||| d * 65536 ||| r * 1024 ||| q * 32 ||| r
      = 0x9b000000 ||| d * 65536 ||| 0x8000 ||| r * 1024 ||| q * 32 ||| r := by ac_rfl
  have e1 : 0x9b000000 ||| d * 65536 = 0x9b000000 + d * 65536 :=
    or_eq_add_of_dvd _ _ 21 (by omega) (by omega)
  have e2 : 0x9b000000 + d * 65536 ||| 0x8000 = 0x9b000000 + d * 65536 + 0x8000 :=
    or_eq_add_of_dvd _ _ 16 (by omega) (by omega)
  have e3 : 0x9b000000 + d * 65536 + 0x8000 ||| r * 1024
      = 0x9b000000 + d * 65536 + 0x8000 + r * 1024 :=
    or_eq_add_of_dvd _ _ 15 (by omega) (by omega)
  have e4 : 0x9b000000 + d * 65536 + 0x8000 + r * 1024 ||| q * 32
      = 0x9b000000 + d * 65536 + 0x8000 + r * 1024 + q * 32 :=
    or_eq_add_of_dvd _ _ 10 (by omega) (by omega)
  rw [h1, h2, h3, h0, e, e1, e2, e3, e4, or_eq_add_of_dvd _ _ 5 (by omega) (by omega)]
  omega

theorem mulWord_lt (t r : Nat) : mulWord t r < 2 ^ 32 :=
  Nat.or_lt_two_pow (Nat.or_lt_two_pow (by decide) (mod_two_pow_32_lt _))
    (mod_two_pow_32_lt _)

theorem quoWord_lt (t r : Nat) : quoWord t r < 2 ^ 32 :=
  Nat.or_lt_two_pow (Nat.or_lt_two_pow (by decide) (mod_two_pow_32_lt _))
    (mod_two_pow_32_lt _)

theorem remSdivWord_lt (d r q : Nat) : remSdivWord d r q < 2 ^ 32 :=
  Nat.or_lt_two_pow (Nat.or_lt_two_pow (Nat.or_lt_two_pow (by decide) (mod_two_pow_32_lt _))
    (mod_two_pow_32_lt _)) (mod_two_pow_32_lt _)

theorem remMsubWord_lt (d q r : Nat) : remMsubWord d q r < 2 ^ 32 :=
  Nat.or_lt_two_pow (Nat.or_lt_two_pow (Nat.or_lt_two_pow (by decide) (mod_two_pow_32_lt _))
    (mod_two_pow_32_lt _)) (mod_two_pow_32_lt _)

theorem negWord_lt (r : Nat) : negWord r < 2 ^ 32 :=
  Nat.or_lt_two_pow (by decide) (mod_two_pow_32_lt _)

/-! ## The stream after the general path of `Rem` -/

theorem remReg_code (B : Bridge) (asm : Asm) (z : Reg) (a : Arg)
    (den : hwReg) (alloc : Bool) (asm1 : Asm) (quo : hwReg) (asm2 : Asm)
    (hal : B.hwAlloc asm a = (den, alloc, asm1)) (hqa : B.Alloc asm1 = (quo, asm2))
    (hfree : ∀ (s : Asm) (r : hwReg) (b : Bool), (B.hwFree s r b).code = s.code)
    (hlo : ∀ (s : Asm) (w : Nat), B.lo (Uint32 s w) z = B.lo s z) :
    (remReg B asm z a).code
      = asm2.code ++ [remSdivWord (B.hwLo den) (B.lo asm2 z) (B.hwLo quo),
          remMsubWord (B.hwLo den) (B.hwLo quo) (B.lo asm2 z)] := by
  simp only [remReg, hal, hqa, hfree, hlo]
  rw [Uint32_code _ _ (remMsubWord_lt _ _ _), Uint32_code _ _ (remSdivWord_lt _ _ _)]
  simp

/-! ## C2 : the value left by the general path of `Rem` -/

/-- C2 : let the operand `a` reach the general path of `Rem` (it is not a
constant, or a constant that is neither `0` nor accepted by the power-of-two
test), let `hwAlloc` return the register `den` for it and `Alloc` the register
`quo`, with a release that emits nothing and an encoding of `z` that does not
depend on the stream.  When `den`, `xz` and `quo` are general registers
(encodings below 31) and `quo` is distinct from `xz` and from `den`, the words
that `Rem(z, a)` appends after the allocations are `sdiv quo, xz, den` then
`msub xz, quo, den, xz`, and on every register file in which `xz` holds a
64-bit signed `z` and `den` a nonzero `a` they run to completion and leave in
`xz` the value `z - (z / a) * a` of 64-bit wraparound arithmetic, which is the
truncating remainder of `z` by `a`, smaller than `a` in magnitude; no register
other than `xz` and `quo` is changed. -/
theorem Rem_general_leaves_remainder (B : Bridge) (asm : Asm) (z : Reg) (a : Arg)
    (den : hwReg) (alloc : Bool) (asm1 : Asm) (quo : hwReg) (asm2 : Asm) (regs : RegFile)
    (hpath : ∀ c : Const, a = .const c → c.val ≠ 0 ∧ andPred c.val ≠ 0)
    (hal : B.hwAlloc asm a = (den, alloc, asm1)) (hqa : B.Alloc asm1 = (quo, asm2))
    (hfree : ∀ (s : Asm) (r : hwReg) (b : Bool), (B.hwFree s r b).code = s.code)
    (hlo : ∀ (s : Asm) (w : Nat), B.lo (Uint32 s w) z = B.lo s z)
    (hd : B.hwLo den < 31) (hr : B.lo asm2 z < 31) (hq : B.hwLo quo < 31)
    (hqr : B.hwLo quo ≠ B.lo asm2 z) (hqd : B.hwLo quo ≠ B.hwLo den)
    (hz : isInt64 (regs (B.lo asm2 z))) (hne : regs (B.hwLo den) ≠ 0) :
    Rem B asm z a = remReg B asm z a ∧
    emitted asm2 (Rem B asm z a)
      = [remSdivWord (B.hwLo den) (B.lo asm2 z) (B.hwLo quo),
         remMsubWord (B.hwLo den) (B.hwLo quo) (B.lo asm2 z)] ∧
    ∃ regs', run (emitted asm2 (Rem B asm z a)) regs = some regs' ∧
      regs' (B.lo asm2 z)
        = wrap64 (regs (B.lo asm2 z)
            - wrap64 (Int.tdiv (regs (B.lo asm2 z)) (regs (B.hwLo den)))
              * regs (B.hwLo den)) ∧
      regs' (B.lo asm2 z)
        = regs (B.lo asm2 z)
            - Int.tdiv (regs (B.lo asm2 z)) (regs (B.hwLo den)) * regs (B.hwLo den) ∧
      regs' (B.lo asm2 z) = Int.tmod (regs (B.lo asm2 z)) (regs (B.hwLo den)) ∧
      (regs' (B.lo asm2 z)).natAbs < (regs (B.hwLo den)).natAbs ∧
      ∀ i, i ≠ B.lo asm2 z → i ≠ B.hwLo quo → regs' i = regs i := by
  have hgen : Rem B asm z a = remReg B asm z a := by
    cases a with
    | const c =>
      obtain ⟨h0, hp⟩ := hpath c rfl
      simp only [Rem, h0, hp, if_false]
    | reg r => rfl
    | var v => rfl
  have hcode := remReg_code B asm z a den alloc asm1 quo asm2 hal hqa hfree hlo
  have hE : emitted asm2 (Rem B asm z a)
      = [remSdivWord (B.hwLo den) (B.lo asm2 z) (B.hwLo quo),
         remMsubWord (B.hwLo den) (B.hwLo quo) (B.lo asm2 z)] := by
    rw [hgen]
    simp [emitted, hcode]
  refine ⟨hgen, hE, ?_⟩
  rw [hE]
  exact run_rem_words _ _ _ regs hd hr hq hqr hqd hz hne

/-- Witness of C2 : `Rem(x2, x3)` from the empty context with the reference
collaborators (`den = x3` lent, `quo = x0` acquired), run with `z = -2^63` in
`x2` and `a = -1` in `x3`: the result is `0`. -/
theorem Rem_general_leaves_remainder_witness :
    ∃ regs', run (emitted asm0 (Rem refBridge asm0 ⟨2⟩ (.reg ⟨3⟩)))
        (fun i => if i = 2 then -2 ^ 63 else if i = 3 then -1 else 0) = some regs' ∧
      regs' 2 = 0 := by
  obtain ⟨_, _, regs', h1, _, _, h4, _⟩ := Rem_general_leaves_remainder refBridge asm0 ⟨2⟩
    (.reg ⟨3⟩) ⟨3⟩ false asm0 ⟨0⟩ ⟨[], [⟨0⟩]⟩
    (fun i => if i = 2 then -2 ^ 63 else if i = 3 then -1 else 0)
    (fun c hc => by cases hc) rfl rfl
    (fun s r b => by cases b <;> rfl) (fun _ _ => rfl)
    (by decide) (by decide) (by decide) (by decide) (by decide) (by decide) (by decide)
  exact ⟨regs', h1, h4.trans (by decide)⟩

/-! ## C11 : the two words of the general path of `Rem` -/

/-- C11 : when `hwAlloc` returns the register `den` for the operand and
`Alloc` the register `quo`, with 5-bit encodings `d = lo(den)`, `r = lo(z)`,
`q = lo(quo)` below 32, a release that emits nothing and an encoding of `z`
that does not depend on the stream, the general path of `Rem` is
`hwFree(quo, true)` then `hwFree(den, alloc)` after exactly two words appended
in this order: `0x9ac00c00 | d<<16 | r<<5 | q`, which decodes to
`sdiv quo, xz, den`, and `0x9b008000 | d<<16 | r<<10 | q<<5 | r`, which decodes
to `msub xz, quo, den, xz`; the bits outside the register fields are those of
the base words.  Every non-constant operand reaches this path, and when its
two allocations emit nothing (operands already in hardware registers) the two
words are all that `Rem` appends. -/
theorem Rem_general_two_words (B : Bridge) (asm : Asm) (z : Reg) (a : Arg)
    (den : hwReg) (alloc : Bool) (asm1 : Asm) (quo : hwReg) (asm2 : Asm)
    (hal : B.hwAlloc asm a = (den, alloc, asm1)) (hqa : B.Alloc asm1 = (quo, asm2))
    (hfree : ∀ (s : Asm) (r : hwReg) (b : Bool), (B.hwFree s r b).code = s.code)
    (hlo : ∀ (s : Asm) (w : Nat), B.lo (Uint32 s w) z = B.lo s z)
    (hd : B.hwLo den < 32) (hr : B.lo asm2 z < 32) (hq : B.hwLo quo < 32) :
    ((∀ c : Const, a ≠ .const c) → Rem B asm z a = remReg B asm z a) ∧
    remReg B asm z a
      = B.hwFree (B.hwFree
          (Uint32 (Uint32 asm2 (remSdivWord (B.hwLo den) (B.lo asm2 z) (B.hwLo quo)))
            (remMsubWord (B.hwLo den) (B.hwLo quo) (B.lo asm2 z))) quo true) den alloc ∧
    emitted asm2 (remReg B asm z a)
      = [0x9ac00c00 ||| B.hwLo den <<< 16 ||| B.lo asm2 z <<< 5 ||| B.hwLo quo,
         0x9b008000 ||| B.hwLo den <<< 16 ||| B.lo asm2 z <<< 10 ||| B.hwLo quo <<< 5
           ||| B.lo asm2 z] ∧
    decode (0x9ac00c00 ||| B.hwLo den <<< 16 ||| B.lo asm2 z <<< 5 ||| B.hwLo quo)
      = some (.sdiv (B.hwLo quo) (B.lo asm2 z) (B.hwLo den)) ∧
    decode (0x9b008000 ||| B.hwLo den <<< 16 ||| B.lo asm2 z <<< 10 ||| B.hwLo quo <<< 5
        ||| B.lo asm2 z)
      = some (.msub (B.lo asm2 z) (B.hwLo quo) (B.hwLo den) (B.lo asm2 z)) ∧
    field (0x9ac00c00 ||| B.hwLo den <<< 16 ||| B.lo asm2 z <<< 5 ||| B.hwLo quo) 21 11
      = field 0x9ac00c00 21 11 ∧
    field (0x9ac00c00 ||| B.hwLo den <<< 16 ||| B.lo asm2 z <<< 5 ||| B.hwLo quo) 10 6
      = field 0x9ac00c00 10 6 ∧
    field (0x9b008000 ||| B.hwLo den <<< 16 ||| B.lo asm2 z <<< 10 ||| B.hwLo quo <<< 5
        ||| B.lo asm2 z) 21 11 = field 0x9b008000 21 11 ∧
    field (0x9b008000 ||| B.hwLo den <<< 16 ||| B.lo asm2 z <<< 10 ||| B.hwLo quo <<< 5
        ||| B.lo asm2 z) 15 1 = field 0x9b008000 15 1 ∧
    ((∀ c : Const, a ≠ .const c) → asm1.code = asm.code → asm2.code = asm1.code →
      emitted asm (Rem B asm z a)
        = [0x9ac00c00 ||| B.hwLo den <<< 16 ||| B.lo asm2 z <<< 5 ||| B.hwLo quo,
           0x9b008000 ||| B.hwLo den <<< 16 ||| B.lo asm2 z <<< 10 ||| B.hwLo quo <<< 5
             ||| B.lo asm2 z]) := by
  have hcode := remReg_code B asm z a den alloc asm1 quo asm2 hal hqa hfree hlo
  have hgen : (∀ c : Const, a ≠ .const c) → Rem B asm z a = remReg B asm z a := by
    intro hc
    cases a with
    | const c => exact absurd rfl (hc c)
    | reg r => rfl
    | var v => rfl
  have l1 := remSdiv_layout _ _ _ hd hr hq
  have l2 := remMsub_layout _ _ _ hd hq hr
  have n1 := remSdivWord_eq _ _ _ hd hr hq
  have n2 := remMsubWord_eq _ _ _ hd hq hr
  refine ⟨hgen, ?_, ?_, ?_, ?_, ?_, ?_, ?_, ?_, ?_⟩
  · simp only [remReg, hal, hqa, hlo]
  · rw [l1, l2, ← n1, ← n2]
    simp [emitted, hcode]
  · rw [l1]; exact decode_remSdiv _ _ _ hd hr hq
  · rw [l2]; exact decode_remMsub _ _ _ hd hq hr
  · rw [l1]
    rw [field_of_parts _ 21 11 0 0x4d6
      (B.hwLo den * 65536 + 0xc00 + B.lo asm2 z * 32 + B.hwLo quo)
      (by omega) (by omega) (by omega)]
    decide
  · rw [l1]
    rw [field_of_parts _ 10 6 (0x9ac0 + B.hwLo den) 3 (B.lo asm2 z * 32 + B.hwLo quo)
      (by omega) (by omega) (by omega)]
    decide
  · rw [l2]
    rw [field_of_parts _ 21 11 0 0x4d8
      (B.hwLo den * 65536 + 0x8000 + B.lo asm2 z * 1024 + B.hwLo quo * 32 + B.lo asm2 z)
      (by omega) (by omega) (by omega)]
    decide
  · rw [l2]
    rw [field_of_parts _ 15 1 (0x9b00 + B.hwLo den) 1
      (B.lo asm2 z * 1024 + B.hwLo quo * 32 + B.lo asm2 z)
      (by omega) (by omega) (by omega)]
    decide
  · intro hc h1 h2
    have e : asm.code.length = asm2.code.length := by rw [h2, h1]
    rw [hgen hc, l1, l2, ← n1, ← n2]
    simp [emitted, hcode, e]

/-- Witness of C11 : `Rem(x2, x3)` from the empty context, with the reference
collaborators: `sdiv x0, x2, x3` then `msub x2, x0, x3, x2`. -/
theorem Rem_general_two_words_witness :
    emitted asm0 (Rem refBridge asm0 ⟨2⟩ (.reg ⟨3⟩)) = [0x9ac30c40, 0x9b038802] ∧
    decode 0x9ac30c40 = some (.sdiv 0 2 3) ∧ decode 0x9b038802 = some (.msub 2 0 3 2) := by
  have h := Rem_general_two_words refBridge asm0 ⟨2⟩ (.reg ⟨3⟩) ⟨3⟩ false asm0 ⟨0⟩
    ⟨[], [⟨0⟩]⟩ rfl rfl
    (fun s r b => by cases b <;> rfl) (fun _ _ => rfl) (by decide) (by decide) (by decide)
  exact ⟨(h.2.2.2.2.2.2.2.2.2 (fun c hc => by cases hc) rfl rfl).trans (by decide),
    by decide, by decide⟩

/-! ## C12 : division and remainder by the constant `0` -/

/-- C12 : for every context, `Quo(z, Const 0)` and `Rem(z, Const 0)` are one
and the same result, `loadConst(x29, 0)` followed by `storeReg(&Var{}, x29)`,
whatever the destination registers and the kind tags.  The result depends on
the collaborators through `loadConst`, `storeReg` and `x29` only: neither call
appends a word of its own (no `sdiv`) or goes through `hwAlloc`, `Alloc` or
`hwFree`.  Under every execution semantics for which the words of that fault
sequence never complete, the words of `Quo(z, Const 0)` and of
`Rem(z, Const 0)` never complete. -/
theorem Quo_Rem_zero_fault (B : Bridge) (asm : Asm) (z z' : Reg) (k k' : Kind) :
    Quo B asm z (.const ⟨k, 0⟩) = B.storeReg (B.loadConst asm B.x29 0) ⟨0⟩ B.x29 ∧
    Rem B asm z' (.const ⟨k', 0⟩) = B.storeReg (B.loadConst asm B.x29 0) ⟨0⟩ B.x29 ∧
    Quo B asm z (.const ⟨k, 0⟩) = Rem B asm z' (.const ⟨k', 0⟩) ∧
    (∀ B' : Bridge, B'.loadConst = B.loadConst → B'.storeReg = B.storeReg →
      B'.x29 = B.x29 →
      Quo B' asm z (.const ⟨k, 0⟩) = Quo B asm z (.const ⟨k, 0⟩) ∧
      Rem B' asm z (.const ⟨k, 0⟩) = Rem B asm z (.const ⟨k, 0⟩)) ∧
    (∀ sem : List Nat → RegFile → Option RegFile,
      (∀ regs, sem (emitted asm (fault B asm)) regs = none) →
      ∀ regs, sem (emitted asm (Quo B asm z (.const ⟨k, 0⟩))) regs = none ∧
        sem (emitted asm (Rem B asm z' (.const ⟨k', 0⟩))) regs = none) := by
  have hQ : ∀ (C : Bridge) (y : Reg) (j : Kind), Quo C asm y (.const ⟨j, 0⟩) = fault C asm :=
    fun C y j => by simp [Quo]
  have hR : ∀ (C : Bridge) (y : Reg) (j : Kind), Rem C asm y (.const ⟨j, 0⟩) = fault C asm :=
    fun C y j => by simp [Rem]
  refine ⟨hQ B z k, hR B z' k', by rw [hQ, hR], ?_, ?_⟩
  · intro B' h1 h2 h3
    rw [hQ, hQ, hR, hR]
    simp only [fault, h1, h2, h3, and_self]
  · intro sem h regs
    rw [hQ, hR]
    exact ⟨h regs, h regs⟩

/-- Witness of C12 : with the reference collaborators the fault sequence is
`movz x29, $0` then `str x29, [x29]`, whose store through the address `0`
faults; so do the words of `Quo(x2, Const 0)` and `Rem(x5, Const 0)`. -/
theorem Quo_Rem_zero_fault_witness :
    emitted asm0 (Quo refBridge asm0 ⟨2⟩ (.const ⟨0, 0⟩)) = [0xd280001d, 0xf90003bd] ∧
    runFault (emitted asm0 (Quo refBridge asm0 ⟨2⟩ (.const ⟨0, 0⟩))) (fun _ => 7) = none ∧
    runFault (emitted asm0 (Rem refBridge asm0 ⟨5⟩ (.const ⟨0, 0⟩))) (fun _ => 7) = none := by
  have h := (Quo_Rem_zero_fault refBridge asm0 ⟨2⟩ ⟨5⟩ 0 0).2.2.2.2 runFault
    (by
      intro regs
      have e : emitted asm0 (fault refBridge asm0) = [0xd280001d, 0xf90003bd] := by decide
      have s1 : field 0xd280001d 22 10 = 0x34a := by decide
      have s2 : field 0xf90003bd 22 10 = 0x3e4 := by decide
      have s3 : field 0xf90003bd 5 5 = 29 := by decide
      have s4 : field 0xf90003bd 10 12 = 0 := by decide
      have d1 : decode 0xd280001d = some (.movz 29 0) := by decide
      rw [e]
      simp [runFault, storeAddr, s1, s2, s3, s4, d1, exec, xwrite])
    (fun _ => 7)
  exact ⟨by decide, h.1, h.2⟩

/-! ## C13 : register acquire/release balance -/

theorem add_const_cases (B : Bridge) (asm : Asm) (z : Reg) (v : Int) :
    add_const B asm z v = (true, asm) ∨
    add_const B asm z v = (true, Uint32 asm (addImmWord v (B.lo asm z))) ∨
    add_const B asm z v = (false, asm) := by
  unfold add_const
  split
  · exact Or.inl rfl
  · split
    · exact Or.inr (Or.inl rfl)
    · exact Or.inr (Or.inr rfl)

theorem sub_const_cases (B : Bridge) (asm : Asm) (z : Reg) (v : Int) :
    sub_const B asm z v = (true, asm) ∨
    sub_const B asm z v = (true, Uint32 asm (subImmWord v (B.lo asm z))) ∨
    sub_const B asm z v = (false, asm) := by
  unfold sub_const
  split
  · exact Or.inl rfl
  · split
    · exact Or.inr (Or.inl rfl)
    · exact Or.inr (Or.inr rfl)

theorem tail_balanced (B : Bridge) (hB : B.ArenaDiscipline) (asm : Asm) (a : Arg)
    (w : Asm → Nat) :
    (B.hwFree (Uint32 (B.hwAlloc asm a).2.2 (w (B.hwAlloc asm a).2.2))
      (B.hwAlloc asm a).1 (B.hwAlloc asm a).2.1).hwRegs = asm.hwRegs := by
  cases h : (B.hwAlloc asm a).2.1 with
  | true =>
    rw [hB.hwFree_owned, Uint32_hwRegs, hB.hwAlloc_owned asm a h, List.erase_cons_head]
  | false =>
    rw [hB.hwFree_borrowed, Uint32_hwRegs, hB.hwAlloc_borrowed asm a h]

theorem addReg_balanced (B : Bridge) (hB : B.ArenaDiscipline) (asm : Asm) (z : Reg)
    (a : Arg) : (addReg B asm z a).hwRegs = asm.hwRegs :=
  tail_balanced B hB asm a (fun s => addRegWord (B.hwLo (B.hwAlloc asm a).1) (B.lo s z))

theorem subReg_balanced (B : Bridge) (hB : B.ArenaDiscipline) (asm : Asm) (z : Reg)
    (a : Arg) : (subReg B asm z a).hwRegs = asm.hwRegs :=
  tail_balanced B hB asm a (fun s => subRegWord (B.hwLo (B.hwAlloc asm a).1) (B.lo s z))

theorem mulReg_balanced (B : Bridge) (hB : B.ArenaDiscipline) (asm : Asm) (z : Reg)
    (a : Arg) : (mulReg B asm z a).hwRegs = asm.hwRegs :=
  tail_balanced B hB asm a (fun s => mulWord (B.hwLo (B.hwAlloc asm a).1) (B.lo s z))

theorem quoReg_balanced (B : Bridge) (hB : B.ArenaDiscipline) (asm : Asm) (z : Reg)
    (a : Arg) : (quoReg B asm z a).hwRegs = asm.hwRegs :=
  tail_balanced B hB asm a (fun s => quoWord (B.hwLo (B.hwAlloc asm a).1) (B.lo s z))

theorem remReg_unfold (B : Bridge) (asm : Asm) (z : Reg) (a : Arg) :
    remReg B asm z a
      = B.hwFree (B.hwFree
          (Uint32
            (Uint32 (B.Alloc (B.hwAlloc asm a).2.2).2
              (remSdivWord (B.hwLo (B.hwAlloc asm a).1)
                (B.lo (B.Alloc (B.hwAlloc asm a).2.2).2 z)
                (B.hwLo (B.Alloc (B.hwAlloc asm a).2.2).1)))
            (remMsubWord (B.hwLo (B.hwAlloc asm a).1)
              (B.hwLo (B.Alloc (B.hwAlloc asm a).2.2).1)
              (B.lo (Uint32 (B.Alloc (B.hwAlloc asm a).2.2).2
                (remSdivWord (B.hwLo (B.hwAlloc asm a).1)
                  (B.lo (B.Alloc (B.hwAlloc asm a).2.2).2 z)
                  (B.hwLo (B.Alloc (B.hwAlloc asm a).2.2).1))) z)))
          (B.Alloc (B.hwAlloc asm a).2.2).1 true)
        (B.hwAlloc asm a).1 (B.hwAlloc asm a).2.1 := rfl

theorem remReg_balanced (B : Bridge) (hB : B.ArenaDiscipline) (asm : Asm) (z : Reg)
    (a : Arg) : (remReg B asm z a).hwRegs = asm.hwRegs := by
  rw [remReg_unfold]
  cases h : (B.hwAlloc asm a).2.1 with
  | true =>
    rw [hB.hwFree_owned, hB.hwFree_owned, Uint32_hwRegs, Uint32_hwRegs, hB.Alloc_owned,
      hB.hwAlloc_owned asm a h, List.erase_cons_head, List.erase_cons_head]
  | false =>
    rw [hB.hwFree_borrowed, hB.hwFree_owned, Uint32_hwRegs, Uint32_hwRegs, hB.Alloc_owned,
      hB.hwAlloc_borrowed asm a h, List.erase_cons_head]

theorem Add_balanced (B : Bridge) (hB : B.ArenaDiscipline) (asm : Asm) (z : Reg) (a : Arg) :
    (Add B asm z a).hwRegs = asm.hwRegs := by
  cases a with
  | reg r => exact addReg_balanced B hB asm z _
  | var v => exact addReg_balanced B hB asm z _
  | const c =>
    rcases add_const_cases B asm z c.val with h | h | h
    · simp [Add, h]
    · simp [Add, h, Uint32_hwRegs]
    · rcases sub_const_cases B asm z (wrap64 (-c.val)) with h' | h' | h'
      · simp [Add, h, h']
      · simp [Add, h, h', Uint32_hwRegs]
      · simp only [Add, h, h']
        exact addReg_balanced B hB asm z _

theorem Sub_balanced (B : Bridge) (hB : B.ArenaDiscipline) (asm : Asm) (z : Reg) (a : Arg) :
    (Sub B asm z a).hwRegs = asm.hwRegs := by
  cases a with
  | reg r => exact subReg_balanced B hB asm z _
  | var v => exact subReg_balanced B hB asm z _
  | const c =>
    rcases sub_const_cases B asm z c.val with h | h | h
    · simp [Sub, h]
    · simp [Sub, h, Uint32_hwRegs]
    · rcases add_const_cases B asm z (wrap64 (-c.val)) with h' | h' | h'
      · simp [Sub, h, h']
      · simp [Sub, h, h', Uint32_hwRegs]
      · simp only [Sub, h, h']
        exact subReg_balanced B hB asm z _

theorem Mul_balanced (B : Bridge) (hB : B.ArenaDiscipline) (asm : Asm) (z : Reg) (a : Arg) :
    (Mul B asm z a).hwRegs = asm.hwRegs := by
  cases a with
  | reg r => exact mulReg_balanced B hB asm z _
  | var v => exact mulReg_balanced B hB asm z _
  | const c =>
    simp only [Mul]
    split
    · exact hB.LoadConst_frame asm z 0
    · split
      · rfl
      · split
        · exact Add_balanced B hB asm z _
        · exact mulReg_balanced B hB asm z _

theorem fault_balanced (B : Bridge) (hB : B.ArenaDiscipline) (asm : Asm) :
    (fault B asm).hwRegs = asm.hwRegs := by
  unfold fault
  rw [hB.storeReg_frame, hB.loadConst_frame]

theorem Quo_balanced (B : Bridge) (hB : B.ArenaDiscipline) (asm : Asm) (z : Reg) (a : Arg) :
    (Quo B asm z a).hwRegs = asm.hwRegs := by
  cases a with
  | reg r => exact quoReg_balanced B hB asm z _
  | var v => exact quoReg_balanced B hB asm z _
  | const c =>
    simp only [Quo]
    split
    · exact fault_balanced B hB asm
    · split
      · rfl
      · exact quoReg_balanced B hB asm z _

theorem Rem_balanced (B : Bridge) (hB : B.ArenaDiscipline) (asm : Asm) (z : Reg) (a : Arg) :
    (Rem B asm z a).hwRegs = asm.hwRegs := by
  cases a with
  | reg r => exact remReg_balanced B hB asm z _
  | var v => exact remReg_balanced B hB asm z _
  | const c =>
    simp only [Rem]
    split
    · exact fault_balanced B hB asm
    · split
      · exact hB.And_frame asm z _
      · exact remReg_balanced B hB asm z _

theorem foldl_Uint32_hwRegs (ws : List Nat) (asm : Asm) :
    (ws.foldl Uint32 asm).hwRegs = asm.hwRegs := by
  induction ws generalizing asm with
  | nil => rfl
  | cons w ws ih => rw [List.foldl_cons, ih, Uint32_hwRegs]

theorem refLoadConst_hwRegs (asm : Asm) (r : hwReg) (v : Int) :
    (refLoadConst asm r v).hwRegs = asm.hwRegs :=
  foldl_Uint32_hwRegs _ asm

theorem refBridge_arena : refBridge.ArenaDiscipline where
  hwAlloc_owned := by
    intro s a h
    cases a with
    | reg r => cases h
    | const c => exact refLoadConst_hwRegs _ _ _
    | var v => rfl
  hwAlloc_borrowed := by
    intro s a h
    cases a with
    | reg r => rfl
    | const c => cases h
    | var v => cases h
  Alloc_owned := fun _ => rfl
  hwFree_owned := fun _ _ => rfl
  hwFree_borrowed := fun _ _ => rfl
  LoadConst_frame := fun s _ v => refLoadConst_hwRegs s _ v
  loadConst_frame := fun s r v => refLoadConst_hwRegs s r v
  storeReg_frame := fun _ _ _ => rfl
  And_frame := by
    intro s z a
    cases a with
    | reg r => rfl
    | const c =>
      show ((refLoadConst _ _ _).hwRegs).erase _ = _
      rw [refLoadConst_hwRegs]
      exact List.erase_cons_head _ _
    | var v => exact List.erase_cons_head _ _

/-- C13 : under the discipline of the register arena (acquire on `Alloc` and
on `hwAlloc` with a true flag, release on `hwFree` with a true flag, nothing
on a false flag, emitting collaborators that leave the arena alone), each of
`Add`, `Sub`, `Mul`, `Quo`, `Rem` and `Neg` leaves the list of acquired
registers as it found it, for every operand and every starting arena.  The
general path of `Rem` acquires `den` when the flag of `hwAlloc` is true and
always `quo` (one or two registers), releases `quo` as owned and `den` with the
flag `hwAlloc` returned; the other general paths release `tmp` with the flag
`hwAlloc` returned, so a lent register is never released. -/
theorem arena_balance (B : Bridge) (hB : B.ArenaDiscipline) (asm : Asm) (z : Reg) (a : Arg) :
    (Add B asm z a).hwRegs = asm.hwRegs ∧ (Sub B asm z a).hwRegs = asm.hwRegs ∧
    (Mul B asm z a).hwRegs = asm.hwRegs ∧ (Quo B asm z a).hwRegs = asm.hwRegs ∧
    (Rem B asm z a).hwRegs = asm.hwRegs ∧ (Neg B asm z).hwRegs = asm.hwRegs ∧
    (∃ s : Asm,
      remReg B asm z a
        = B.hwFree (B.hwFree s (B.Alloc (B.hwAlloc asm a).2.2).1 true)
            (B.hwAlloc asm a).1 (B.hwAlloc asm a).2.1 ∧
      s.hwRegs = (B.Alloc (B.hwAlloc asm a).2.2).1 ::
        (if (B.hwAlloc asm a).2.1 = true then (B.hwAlloc asm a).1 :: asm.hwRegs
          else asm.hwRegs) ∧
      s.hwRegs.length = asm.hwRegs.length + (if (B.hwAlloc asm a).2.1 = true then 2 else 1) ∧
      (B.hwFree s (B.Alloc (B.hwAlloc asm a).2.2).1 true).hwRegs
        = (B.hwAlloc asm a).2.2.hwRegs) ∧
    (∃ s : Asm,
      addReg B asm z a = B.hwFree s (B.hwAlloc asm a).1 (B.hwAlloc asm a).2.1 ∧
      s.hwRegs = (if (B.hwAlloc asm a).2.1 = true then (B.hwAlloc asm a).1 :: asm.hwRegs
        else asm.hwRegs)) := by
  have hal : (B.hwAlloc asm a).2.2.hwRegs
      = (if (B.hwAlloc asm a).2.1 = true then (B.hwAlloc asm a).1 :: asm.hwRegs
          else asm.hwRegs) := by
    cases h : (B.hwAlloc asm a).2.1 with
    | true => simpa using hB.hwAlloc_owned asm a h
    | false => simpa using hB.hwAlloc_borrowed asm a h
  refine ⟨Add_balanced B hB asm z a, Sub_balanced B hB asm z a, Mul_balanced B hB asm z a,
    Quo_balanced B hB asm z a, Rem_balanced B hB asm z a, rfl, ?_, ?_⟩
  · refine ⟨_, remReg_unfold B asm z a, ?_, ?_, ?_⟩
    · rw [Uint32_hwRegs, Uint32_hwRegs, hB.Alloc_owned, hal]
    · rw [Uint32_hwRegs, Uint32_hwRegs, hB.Alloc_owned, hal]
      split <;> simp
    · rw [hB.hwFree_owned, Uint32_hwRegs, Uint32_hwRegs, hB.Alloc_owned,
        List.erase_cons_head]
  · exact ⟨_, rfl, by rw [Uint32_hwRegs, hal]⟩

/-- Witness of C13 : with the reference collaborators, `Rem(x9, Const 5000)`
started with `x0` acquired takes `x1` for the constant and `x2` for the
quotient and ends with `x0` alone acquired. -/
theorem arena_balance_witness :
    (Rem refBridge ⟨[], [⟨0⟩]⟩ ⟨9⟩ (.const ⟨0, 5000⟩)).hwRegs = [⟨0⟩] ∧
    (refBridge.Alloc (refBridge.hwAlloc ⟨[], [⟨0⟩]⟩ (.const ⟨0, 5000⟩)).2.2).2.hwRegs
      = [⟨2⟩, ⟨1⟩, ⟨0⟩] :=
  ⟨(arena_balance refBridge refBridge_arena ⟨[], [⟨0⟩]⟩ ⟨9⟩ (.const ⟨0, 5000⟩)).2.2.2.2.1,
    by decide⟩

/-! ## C14 : the register-register words of `Add`, `Sub`, `Mul` and `Quo` -/

/-- C14 : for 5-bit encodings `t = lo(tmp) < 32` and `r = lo(z) < 32`, the
words of the general paths of `Add`, `Sub`, `Mul` and `Quo` are
`base | t<<16 | r<<5 | r` with base `0x8b000000`, `0xcb000000`, `0x9b007c00`
and `0x9ac00c00`; bits 16..20, 5..9 and 0..4 of each read back `t`, `r`, `r`
and the remaining bits (21..31 and 10..15) are those of the base, so the words
decode to `add`, `sub`, `mul` (a `madd` on the zero register) and `sdiv` of
`xz, xz, xtmp`.  Each general path is `hwAlloc`, exactly one such word appended
to the context `hwAlloc` returned, then `hwFree`, and every non-constant
operand takes it. -/
theorem general_words_layout (B : Bridge) (asm : Asm) (z : Reg) (a : Arg)
    (tmp : hwReg) (alloc : Bool) (asm1 : Asm)
    (hal : B.hwAlloc asm a = (tmp, alloc, asm1))
    (ht : B.hwLo tmp < 32) (hr : B.lo asm1 z < 32) :
    (addReg B asm z a
        = B.hwFree (Uint32 asm1
            (0x8b000000 ||| B.hwLo tmp <<< 16 ||| B.lo asm1 z <<< 5 ||| B.lo asm1 z))
            tmp alloc ∧
      subReg B asm z a
        = B.hwFree (Uint32 asm1
            (0xcb000000 ||| B.hwLo tmp <<< 16 ||| B.lo asm1 z <<< 5 ||| B.lo asm1 z))
            tmp alloc ∧
      mulReg B asm z a
        = B.hwFree (Uint32 asm1
            (0x9b007c00 ||| B.hwLo tmp <<< 16 ||| B.lo asm1 z <<< 5 ||| B.lo asm1 z))
            tmp alloc ∧
      quoReg B asm z a
        = B.hwFree (Uint32 asm1
            (0x9ac00c00 ||| B.hwLo tmp <<< 16 ||| B.lo asm1 z <<< 5 ||| B.lo asm1 z))
            tmp alloc) ∧
    (∀ base : Nat, base = 0x8b000000 ∨ base = 0xcb000000 ∨ base = 0x9b007c00 ∨
        base = 0x9ac00c00 →
      emitted asm1 (Uint32 asm1
          (base ||| B.hwLo tmp <<< 16 ||| B.lo asm1 z <<< 5 ||| B.lo asm1 z))
        = [base ||| B.hwLo tmp <<< 16 ||| B.lo asm1 z <<< 5 ||| B.lo asm1 z] ∧
      field (base ||| B.hwLo tmp <<< 16 ||| B.lo asm1 z <<< 5 ||| B.lo asm1 z) 16 5
        = B.hwLo tmp ∧
      field (base ||| B.hwLo tmp <<< 16 ||| B.lo asm1 z <<< 5 ||| B.lo asm1 z) 5 5
        = B.lo asm1 z ∧
      field (base ||| B.hwLo tmp <<< 16 ||| B.lo asm1 z <<< 5 ||| B.lo asm1 z) 0 5
        = B.lo asm1 z ∧
      field (base ||| B.hwLo tmp <<< 16 ||| B.lo asm1 z <<< 5 ||| B.lo asm1 z) 21 11
        = field base 21 11 ∧
      field (base ||| B.hwLo tmp <<< 16 ||| B.lo asm1 z <<< 5 ||| B.lo asm1 z) 10 6
        = field base 10 6) ∧
    (decode (0x8b000000 ||| B.hwLo tmp <<< 16 ||| B.lo asm1 z <<< 5 ||| B.lo asm1 z)
        = some (.add (B.lo asm1 z) (B.lo asm1 z) (B.hwLo tmp)) ∧
      decode (0xcb000000 ||| B.hwLo tmp <<< 16 ||| B.lo asm1 z <<< 5 ||| B.lo asm1 z)
        = some (.sub (B.lo asm1 z) (B.lo asm1 z) (B.hwLo tmp)) ∧
      decode (0x9b007c00 ||| B.hwLo tmp <<< 16 ||| B.lo asm1 z <<< 5 ||| B.lo asm1 z)
        = some (.madd (B.lo asm1 z) (B.lo asm1 z) (B.hwLo tmp) 31) ∧
      decode (0x9ac00c00 ||| B.hwLo tmp <<< 16 ||| B.lo asm1 z <<< 5 ||| B.lo asm1 z)
        = some (.sdiv (B.lo asm1 z) (B.lo asm1 z) (B.hwLo tmp))) ∧
    ((∀ c : Const, a ≠ .const c) →
      Add B asm z a = addReg B asm z a ∧ Sub B asm z a = subReg B asm z a ∧
      Mul B asm z a = mulReg B asm z a ∧ Quo B asm z a = quoReg B asm z a) := by
  have la := regWord_layout 0x458 0 _ _ (by omega) ht hr
  have ls := regWord_layout 0x658 0 _ _ (by omega) ht hr
  have lm := regWord_layout 0x4d8 31 _ _ (by omega) ht hr
  have lq := regWord_layout 0x4d6 3 _ _ (by omega) ht hr
  have fa := regWord_fields 0x458 0 _ _ (by omega) (by omega) ht hr
  have fs := regWord_fields 0x658 0 _ _ (by omega) (by omega) ht hr
  have fm := regWord_fields 0x4d8 31 _ _ (by omega) (by omega) ht hr
  have fq := regWord_fields 0x4d6 3 _ _ (by omega) (by omega) ht hr
  norm_num at la ls lm lq fa fs fm fq
  have na := addRegWord_eq _ _ ht hr
  have ns := subRegWord_eq _ _ ht hr
  have nm := mulWord_eq _ _ ht hr
  have nq := quoWord_eq _ _ ht hr
  have e33 : ∀ x y : Nat, x + y * 33 = x + y * 32 + y := fun x y => by omega
  refine ⟨⟨?_, ?_, ?_, ?_⟩, ?_, ⟨?_, ?_, ?_, ?_⟩, ?_⟩
  · simp only [addReg, hal]; rw [na, la]
  · simp only [subReg, hal]; rw [ns, ls]
  · simp only [mulReg, hal]; rw [nm, lm]
  · simp only [quoReg, hal]; rw [nq, lq]
  · intro base hb
    rcases hb with rfl | rfl | rfl | rfl
    · rw [la]
      refine ⟨?_, fa.2.1, fa.2.2.2.1, fa.2.2.2.2, fa.1.trans (by decide),
        fa.2.2.1.trans (by decide)⟩
      rw [← na]; exact emitted_Uint32 _ _ (addRegWord_lt _ _)
    · rw [ls]
      refine ⟨?_, fs.2.1, fs.2.2.2.1, fs.2.2.2.2, fs.1.trans (by decide),
        fs.2.2.1.trans (by decide)⟩
      rw [← ns]; exact emitted_Uint32 _ _ (subRegWord_lt _ _)
    · rw [lm]
      refine ⟨?_, fm.2.1, fm.2.2.2.1, fm.2.2.2.2, fm.1.trans (by decide),
        fm.2.2.1.trans (by decide)⟩
      rw [← nm]; exact emitted_Uint32 _ _ (mulWord_lt _ _)
    · rw [lq]
      refine ⟨?_, fq.2.1, fq.2.2.2.1, fq.2.2.2.2, fq.1.trans (by decide),
        fq.2.2.1.trans (by decide)⟩
      rw [← nq]; exact emitted_Uint32 _ _ (quoWord_lt _ _)
  · rw [la]; exact decode_addReg _ _ ht hr
  · rw [ls, e33]; exact decode_subReg _ _ _ ht hr hr
  · rw [lm, e33]; exact decode_mul _ _ _ ht hr hr
  · rw [lq, e33]; exact decode_remSdiv _ _ _ ht hr hr
  · intro hc
    cases a with
    | const c => exact absurd rfl (hc c)
    | reg r => exact ⟨rfl, rfl, rfl, rfl⟩
    | var v => exact ⟨rfl, rfl, rfl, rfl⟩

/-- Witness of C14 : `Mul(x1, x4)` from the empty context appends
`mul x1, x1, x4`. -/
theorem general_words_layout_witness :
    emitted asm0 (Mul refBridge asm0 ⟨1⟩ (.reg ⟨4⟩)) = [0x9b047c21] ∧
    decode 0x9b047c21 = some (.madd 1 1 4 31) := by
  have h := general_words_layout refBridge asm0 ⟨1⟩ (.reg ⟨4⟩) ⟨4⟩ false asm0 rfl
    (by decide) (by decide)
  have e : Mul refBridge asm0 ⟨1⟩ (.reg ⟨4⟩) = mulReg refBridge asm0 ⟨1⟩ (.reg ⟨4⟩) :=
    (h.2.2.2 (fun c hc => by cases hc)).2.2.1
  rw [e, h.1.2.2.1]
  exact ⟨by decide, by decide⟩

/-! ## C15 : `Neg` -/

/-- C15 : for a register `z` with 5-bit encoding `r = lo(z) < 32`, `Neg(z)`
appends exactly one word, `0xcb0003e0 | r<<16 | r`, and acquires no register;
the two copies of `r` fill bits 16..20 and 0..4 and the other bits are those of
`0xcb0003e0`, so the word decodes to `sub xz, xzr, xz`.  For a general register
(`r < 31`) it replaces the content of `xz` by `-z` modulo `2^64` and touches no
other register.  With `lo(z) = 1` the word is `0xcb0103e1`. -/
theorem Neg_one_word (B : Bridge) (asm : Asm) (z : Reg) (hr : B.lo asm z < 32) :
    Neg B asm z = Uint32 asm (0xcb0003e0 ||| B.lo asm z <<< 16 ||| B.lo asm z) ∧
    emitted asm (Neg B asm z) = [0xcb0003e0 ||| B.lo asm z <<< 16 ||| B.lo asm z] ∧
    (Neg B asm z).hwRegs = asm.hwRegs ∧
    field (0xcb0003e0 ||| B.lo asm z <<< 16 ||| B.lo asm z) 16 5 = B.lo asm z ∧
    field (0xcb0003e0 ||| B.lo asm z <<< 16 ||| B.lo asm z) 0 5 = B.lo asm z ∧
    field (0xcb0003e0 ||| B.lo asm z <<< 16 ||| B.lo asm z) 21 11
      = field 0xcb0003e0 21 11 ∧
    field (0xcb0003e0 ||| B.lo asm z <<< 16 ||| B.lo asm z) 5 11
      = field 0xcb0003e0 5 11 ∧
    decode (0xcb0003e0 ||| B.lo asm z <<< 16 ||| B.lo asm z)
      = some (.sub (B.lo asm z) 31 (B.lo asm z)) ∧
    (B.lo asm z < 31 → ∀ regs : RegFile, ∃ regs',
      run (emitted asm (Neg B asm z)) regs = some regs' ∧
      regs' (B.lo asm z) = wrap64 (-regs (B.lo asm z)) ∧
      ∀ i, i ≠ B.lo asm z → regs' i = regs i) ∧
    (B.lo asm z = 1 → emitted asm (Neg B asm z) = [0xcb0103e1]) := by
  have l := negWord_layout _ hr
  have n := negWord_eq _ hr
  have hN : Neg B asm z = Uint32 asm (0xcb0003e0 ||| B.lo asm z <<< 16 ||| B.lo asm z) := by
    unfold Neg; rw [n, l]
  have hlt : 0xcb0003e0 ||| B.lo asm z <<< 16 ||| B.lo asm z < 2 ^ 32 := by
    rw [l]; omega
  have hE := emitted_Uint32 asm _ hlt
  have hD := decode_subReg (B.lo asm z) 31 (B.lo asm z) hr (by omega) hr
  refine ⟨hN, by rw [hN, hE], by rw [hN]; rfl, ?_, ?_, ?_, ?_, by rw [l]; exact hD, ?_, ?_⟩
  · rw [l]
    exact field_of_parts _ 16 5 0x658 _ (31 * 32 + B.lo asm z) (by omega) (by omega)
      (by omega)
  · rw [l]
    exact field_of_parts _ 0 5 (0x6580000 + B.lo asm z * 2048 + 31) _ 0 (by omega)
      (by omega) (by omega)
  · rw [l, field_of_parts _ 21 11 0 0x658 (B.lo asm z * 65536 + 31 * 32 + B.lo asm z)
      (by omega) (by omega) (by omega)]
    decide
  · rw [l, field_of_parts _ 5 11 (0xcb00 + B.lo asm z) 31 (B.lo asm z)
      (by omega) (by omega) (by omega)]
    decide
  · intro h31 regs
    have hne : B.lo asm z ≠ 31 := by omega
    rw [hN, hE, l]
    refine ⟨exec (.sub (B.lo asm z) 31 (B.lo asm z)) regs, by simp only [run, hD], ?_, ?_⟩
    · simp [exec, xwrite, xread, hne]
    · intro i hi
      simp [exec, xwrite, hi]
  · intro h1
    rw [hN, hE, h1]
    decide

/-- Witness of C15 : `Neg(x1)` from the empty context appends `0xcb0103e1`. -/
theorem Neg_one_word_witness :
    (Neg refBridge asm0 ⟨1⟩).code = [0xcb0103e1] ∧
    decode 0xcb0103e1 = some (.sub 1 31 1) := by
  have h := Neg_one_word refBridge asm0 ⟨1⟩ (by decide)
  exact ⟨by rw [h.1]; decide, by decide⟩

end Jit

namespace Type2

/-! ## C16 : `Len` -/

theorem Len_of_non_func (t : timpl) (ht : t.Kind ≠ Kind.Func) :
    t.Len = .error "Len of non-array type" := by
  simp [timpl.Len, ht, errorf]

theorem Len_of_array (t : timpl) (ht : t.Kind = Kind.Array) :
    t.Len = .error "Len of non-array type" :=
  Len_of_non_func t (by rw [ht]; decide)

theorem Len_of_func (t : timpl) (ht : t.Kind = Kind.Func) : t.Len = t.rtype.Len := by
  simp [timpl.Len, ht]

/-- C16 : `Len` compares the kind of the type with `reflect.Func`, not with
`reflect.Array`.  On the array type `[3]int`, of kind `Array` and of length
`rtype.Len() = 3`, `Len` aborts with `Len of non-array type` instead of
returning `3`; on the function type `func()` the check passes and the abort is
the one of `rtype.Len()` in the `reflect` library. -/
theorem Len_aborts_on_array :
    arrayOf3Int.Kind = Kind.Array ∧ arrayOf3Int.rtype.Len = .ok 3 ∧
    arrayOf3Int.Len = .error "Len of non-array type" ∧
    funcType.Kind = Kind.Func ∧
    funcType.Len = .error "reflect: Len of non-array type" :=
  ⟨rfl, rfl, rfl, rfl, rfl⟩

/-! ## C17 : `SetUnderlying` -/

/-- C17 : `SetUnderlying` aborts with `SetUnderlying of unnamed type` on every
receiver whose static type is not a named type; on a named receiver it aborts
(in `types.Named.SetUnderlying`) when the static type of the argument is
itself named; and on a named receiver and an unnamed argument it returns, the
receiver keeping its name, its kind and its reflected type while its static
underlying type becomes the static type of the argument. -/
theorem SetUnderlying_spec (t u : timpl) :
    (t.gtype.isNamed = false →
      t.SetUnderlying u = .error "SetUnderlying of unnamed type") ∧
    (t.gtype.isNamed = true → u.gtype.isNamed = true →
      t.SetUnderlying u = .error "types.Named.SetUnderlying(*Named)") ∧
    (t.gtype.isNamed = true → u.gtype.isNamed = false →
      ∃ t' : timpl, t.SetUnderlying u = .ok t' ∧
        t'.gtype.isNamed = true ∧
        t'.gtype.Underlying = u.gtype ∧
        t'.gtype.Underlying = u.gtype.Underlying ∧
        (∀ name g, t.gtype = .named name g → t'.gtype = .named name u.gtype) ∧
        t'.kind = t.kind ∧ t'.rtype = t.rtype) := by
  obtain ⟨tk, tg, tr⟩ := t
  obtain ⟨uk, ug, ur⟩ := u
  refine ⟨?_, ?_, ?_⟩
  · intro h
    cases tg <;> first | rfl | cases h
  · intro h1 h2
    cases tg <;> cases h1
    cases ug <;> first | rfl | cases h2
  · intro h1 h2
    cases tg <;> cases h1
    cases ug <;> cases h2
    all_goals
      refine ⟨_, rfl, rfl, rfl, rfl, ?_, rfl, rfl⟩
      intro name g hg
      cases hg
      rfl

/-- Witness of C17 : the named type `List`, created over `interface{}`, gets
the underlying type `[]int`. -/
theorem SetUnderlying_spec_witness :
    ∃ t' : timpl,
      timpl.SetUnderlying ⟨Kind.Interface, .named "List" .iface, .iface⟩
          ⟨Kind.Slice, .slice (.basic Kind.Int), .slice (.basic Kind.Int)⟩ = .ok t' ∧
        t'.gtype = .named "List" (.slice (.basic Kind.Int)) := by
  obtain ⟨t', h1, _, _, _, h5, _⟩ :=
    (SetUnderlying_spec ⟨Kind.Interface, .named "List" .iface, .iface⟩
      ⟨Kind.Slice, .slice (.basic Kind.Int), .slice (.basic Kind.Int)⟩).2.2 rfl rfl
  exact ⟨t', h1, h5 "List" .iface rfl⟩

end Type2

namespace Jit

/-! ## C18 : the power-of-two test of `Rem` -/

theorem and_pred_odd (m : Nat) : (2 * m + 1) &&& (2 * m + 1 - 1) = 2 * m := by
  have h := Nat.land_bit true m false m
  simp only [Nat.bit_val, Bool.toNat_true, Bool.toNat_false, Bool.and_false, Nat.and_self,
    Nat.add_zero] at h
  rw [Nat.add_sub_cancel]
  exact h

theorem and_pred_even (m : Nat) (hm : 0 < m) :
    (2 * m) &&& (2 * m - 1) = 2 * (m &&& (m - 1)) := by
  have h := Nat.land_bit false m true (m - 1)
  simp only [Nat.bit_val, Bool.toNat_true, Bool.toNat_false, Bool.false_and,
    Nat.add_zero] at h
  have e : 2 * m - 1 = 2 * (m - 1) + 1 := by omega
  rw [e]
  exact h

theorem two_pow_of_and_pred (n : Nat) (hn : 0 < n) (h : n &&& (n - 1) = 0) :
    ∃ k : Nat, n = 2 ^ k := by
  induction n using Nat.strong_induction_on with
  | _ n ih =>
    rcases Nat.even_or_odd' n with ⟨m, rfl | rfl⟩
    · have hm : 0 < m := by omega
      rw [and_pred_even m hm] at h
      obtain ⟨k, hk⟩ := ih m (by omega) hm (by omega)
      exact ⟨k + 1, by rw [hk, Nat.pow_succ]; ring⟩
    · rw [and_pred_odd m] at h
      exact ⟨0, by omega⟩

theorem toUint64_pred (val : Int) (hv : isInt64 val) (h0 : val ≠ 0) :
    toUint64 (val - 1) = toUint64 val - 1 := by
  unfold isInt64 at hv
  unfold toUint64
  omega

/-- C18 : for a nonzero `int64` constant `val`, the test `val & (val-1) == 0`
of `Rem`, in 64-bit two's complement with `val-1` wrapping, holds exactly when
`val = 2^k` for some `k ≤ 62` or `val = -2^63`.  Hence `Rem` on a negative
constant other than `-2^63` is its general `sdiv`/`msub` path, while
`Rem(z, Const -2^63)` is `And(z, Const 2^63-1)` and `Rem(z, Const 1)` is
`And(z, Const 0)`. -/
theorem Rem_pow2_test (val : Int) (hv : isInt64 val) (h0 : val ≠ 0) :
    (andPred val = 0 ↔ (∃ k : Nat, k ≤ 62 ∧ val = 2 ^ k) ∨ val = -2 ^ 63) ∧
    (∀ (B : Bridge) (asm : Asm) (z : Reg) (kind : Kind), val < 0 → val ≠ -2 ^ 63 →
      Rem B asm z (.const ⟨kind, val⟩) = remReg B asm z (.const ⟨kind, val⟩)) ∧
    (∀ (B : Bridge) (asm : Asm) (z : Reg) (kind : Kind),
      Rem B asm z (.const ⟨kind, -2 ^ 63⟩) = B.And asm z (.const ⟨kind, 2 ^ 63 - 1⟩) ∧
      Rem B asm z (.const ⟨kind, 1⟩) = B.And asm z (.const ⟨kind, 0⟩)) := by
  have hiff : andPred val = 0 ↔ (∃ k : Nat, k ≤ 62 ∧ val = 2 ^ k) ∨ val = -2 ^ 63 := by
    constructor
    · intro h
      unfold andPred at h
      rw [toUint64_pred val hv h0] at h
      have hu0 : 0 < toUint64 val := by unfold toUint64; unfold isInt64 at hv; omega
      have hu64 : toUint64 val < 2 ^ 64 := by unfold toUint64; omega
      obtain ⟨k, hk⟩ := two_pow_of_and_pred _ hu0 h
      have hcast : ((2 ^ k : Nat) : Int) = (2 : Int) ^ k := by simp
      rcases Nat.lt_or_ge k 63 with hk63 | hk63
      · left
        have hp : (2 : Nat) ^ k ≤ 2 ^ 62 := Nat.pow_le_pow_right (by decide) (by omega)
        refine ⟨k, by omega, ?_⟩
        rw [← hcast, ← hk]
        unfold toUint64 at hk ⊢
        unfold isInt64 at hv
        omega
      · right
        rcases Nat.eq_or_lt_of_le hk63 with h63 | h64
        · rw [← h63] at hk
          unfold toUint64 at hk
          unfold isInt64 at hv
          omega
        · have hp : (2 : Nat) ^ 64 ≤ 2 ^ k := Nat.pow_le_pow_right (by decide) (by omega)
          omega
    · rintro (⟨k, hk, rfl⟩ | rfl)
      · exact andPred_two_pow k hk
      · decide
  refine ⟨hiff, ?_, ?_⟩
  · intro B asm z kind hneg hmin
    have hnot : andPred val ≠ 0 := by
      intro h
      rcases hiff.mp h with ⟨k, _, hk⟩ | hk
      · have : (0 : Int) < 2 ^ k := by positivity
        omega
      · exact hmin hk
    simp only [Rem, h0, hnot, if_false]
  · intro B asm z kind
    have a1 : andPred (-2 ^ 63) = 0 := by decide
    have w1 : wrap64 (-2 ^ 63 - 1) = 2 ^ 63 - 1 := by decide
    have a2 : andPred 1 = 0 := by decide
    have w2 : wrap64 (1 - 1) = 0 := by decide
    have n1 : (-2 ^ 63 : Int) ≠ 0 := by decide
    have n2 : (1 : Int) ≠ 0 := by decide
    exact ⟨by simp only [Rem, n1, a1, w1, if_true, if_false],
      by simp only [Rem, n2, a2, w2, if_true, if_false]⟩

/-- Witness of C18 : the constant `-8` fails the test and `Rem(x1, Const -8)`
is the general path. -/
theorem Rem_pow2_test_witness :
    andPred (-8) ≠ 0 ∧
    Rem refBridge asm0 ⟨1⟩ (.const ⟨0, -8⟩) = remReg refBridge asm0 ⟨1⟩ (.const ⟨0, -8⟩) :=
  ⟨by decide,
    (Rem_pow2_test (-8) (by decide) (by decide)).2.1 refBridge asm0 ⟨1⟩ 0 (by decide)
      (by decide)⟩

/-! ## C19 : emission is append-only -/

theorem Uint32_extends (asm : Asm) (w : Nat) : asm.code <+: (Uint32 asm w).code :=
  List.prefix_append _ _

theorem add_const_extends (B : Bridge) (asm : Asm) (z : Reg) (v : Int) :
    asm.code <+: (add_const B asm z v).2.code := by
  rcases add_const_cases B asm z v with h | h | h
  · rw [h]
  · rw [h]; exact Uint32_extends _ _
  · rw [h]

theorem sub_const_extends (B : Bridge) (asm : Asm) (z : Reg) (v : Int) :
    asm.code <+: (sub_const B asm z v).2.code := by
  rcases sub_const_cases B asm z v with h | h | h
  · rw [h]
  · rw [h]; exact Uint32_extends _ _
  · rw [h]

theorem tail_extends (B : Bridge) (hB : B.AppendOnly) (asm : Asm) (a : Arg) (w : Asm → Nat) :
    asm.code <+: (B.hwFree (Uint32 (B.hwAlloc asm a).2.2 (w (B.hwAlloc asm a).2.2))
      (B.hwAlloc asm a).1 (B.hwAlloc asm a).2.1).code :=
  ((hB.hwAlloc asm a).trans (Uint32_extends _ _)).trans (hB.hwFree _ _ _)

theorem addReg_extends (B : Bridge) (hB : B.AppendOnly) (asm : Asm) (z : Reg) (a : Arg) :
    asm.code <+: (addReg B asm z a).code :=
  tail_extends B hB asm a (fun s => addRegWord (B.hwLo (B.hwAlloc asm a).1) (B.lo s z))

theorem subReg_extends (B : Bridge) (hB : B.AppendOnly) (asm : Asm) (z : Reg) (a : Arg) :
    asm.code <+: (subReg B asm z a).code :=
  tail_extends B hB asm a (fun s => subRegWord (B.hwLo (B.hwAlloc asm a).1) (B.lo s z))

theorem mulReg_extends (B : Bridge) (hB : B.AppendOnly) (asm : Asm) (z : Reg) (a : Arg) :
    asm.code <+: (mulReg B asm z a).code :=
  tail_extends B hB asm a (fun s => mulWord (B.hwLo (B.hwAlloc asm a).1) (B.lo s z))

theorem quoReg_extends (B : Bridge) (hB : B.AppendOnly) (asm : Asm) (z : Reg) (a : Arg) :
    asm.code <+: (quoReg B asm z a).code :=
  tail_extends B hB asm a (fun s => quoWord (B.hwLo (B.hwAlloc asm a).1) (B.lo s z))

theorem remReg_extends (B : Bridge) (hB : B.AppendOnly) (asm : Asm) (z : Reg) (a : Arg) :
    asm.code <+: (remReg B asm z a).code := by
  rw [remReg_unfold]
  exact (((((hB.hwAlloc asm a).trans (hB.Alloc _)).trans (Uint32_extends _ _)).trans
    (Uint32_extends _ _)).trans (hB.hwFree _ _ _)).trans (hB.hwFree _ _ _)

theorem fault_extends (B : Bridge) (hB : B.AppendOnly) (asm : Asm) :
    asm.code <+: (fault B asm).code :=
  (hB.loadConst asm B.x29 0).trans (hB.storeReg _ _ _)

theorem Add_extends (B : Bridge) (hB : B.AppendOnly) (asm : Asm) (z : Reg) (a : Arg) :
    asm.code <+: (Add B asm z a).code := by
  cases a with
  | reg r => exact addReg_extends B hB asm z _
  | var v => exact addReg_extends B hB asm z _
  | const c =>
    rcases add_const_cases B asm z c.val with h | h | h
    · simp [Add, h]
    · simp only [Add, h]; exact Uint32_extends _ _
    · rcases sub_const_cases B asm z (wrap64 (-c.val)) with h' | h' | h'
      · simp [Add, h, h']
      · simp only [Add, h, h']; exact Uint32_extends _ _
      · simp only [Add, h, h']
        exact addReg_extends B hB asm z _

theorem Sub_extends (B : Bridge) (hB : B.AppendOnly) (asm : Asm) (z : Reg) (a : Arg) :
    asm.code <+: (Sub B asm z a).code := by
  cases a with
  | reg r => exact subReg_extends B hB asm z _
  | var v => exact subReg_extends B hB asm z _
  | const c =>
    rcases sub_const_cases B asm z c.val with h | h | h
    · simp [Sub, h]
    · simp only [Sub, h]; exact Uint32_extends _ _
    · rcases add_const_cases B asm z (wrap64 (-c.val)) with h' | h' | h'
      · simp [Sub, h, h']
      · simp only [Sub, h, h']; exact Uint32_extends _ _
      · simp only [Sub, h, h']
        exact subReg_extends B hB asm z _

theorem Mul_extends (B : Bridge) (hB : B.AppendOnly) (asm : Asm) (z : Reg) (a : Arg) :
    asm.code <+: (Mul B asm z a).code := by
  cases a with
  | reg r => exact mulReg_extends B hB asm z _
  | var v => exact mulReg_extends B hB asm z _
  | const c =>
    simp only [Mul]
    split
    · exact hB.LoadConst asm z 0
    · split
      · exact List.prefix_refl _
      · split
        · exact Add_extends B hB asm z _
        · exact mulReg_extends B hB asm z _

theorem Quo_extends (B : Bridge) (hB : B.AppendOnly) (asm : Asm) (z : Reg) (a : Arg) :
    asm.code <+: (Quo B asm z a).code := by
  cases a with
  | reg r => exact quoReg_extends B hB asm z _
  | var v => exact quoReg_extends B hB asm z _
  | const c =>
    simp only [Quo]
    split
    · exact fault_extends B hB asm
    · split
      · exact List.prefix_refl _
      · exact quoReg_extends B hB asm z _

theorem Rem_extends (B : Bridge) (hB : B.AppendOnly) (asm : Asm) (z : Reg) (a : Arg) :
    asm.code <+: (Rem B asm z a).code := by
  cases a with
  | reg r => exact remReg_extends B hB asm z _
  | var v => exact remReg_extends B hB asm z _
  | const c =>
    simp only [Rem]
    split
    · exact fault_extends B hB asm
    · split
      · exact hB.And asm z _
      · exact remReg_extends B hB asm z _

theorem foldl_Uint32_extends (ws : List Nat) (asm : Asm) :
    asm.code <+: (ws.foldl Uint32 asm).code := by
  induction ws generalizing asm with
  | nil => exact List.prefix_refl _
  | cons w ws ih => exact (Uint32_extends asm w).trans (ih _)

theorem refBridge_appendOnly : refBridge.AppendOnly where
  hwAlloc := by
    intro s a
    cases a with
    | reg r => exact List.prefix_refl _
    | const c =>
      exact foldl_Uint32_extends (movWords _ c.val)
        { s with hwRegs := firstFree s.hwRegs :: s.hwRegs }
    | var v => exact Uint32_extends { s with hwRegs := firstFree s.hwRegs :: s.hwRegs } _
  hwFree := by
    intro s r b
    cases b <;> exact List.prefix_refl _
  Alloc := fun _ => List.prefix_refl _
  LoadConst := fun s _ _ => foldl_Uint32_extends _ s
  loadConst := fun s _ _ => foldl_Uint32_extends _ s
  storeReg := fun s _ _ => Uint32_extends s _
  And := by
    intro s z a
    cases a with
    | reg r => exact Uint32_extends _ _
    | const c =>
      exact (foldl_Uint32_extends (movWords _ c.val)
        { s with hwRegs := firstFree s.hwRegs :: s.hwRegs }).trans (Uint32_extends _ _)
    | var v =>
      exact (Uint32_extends { s with hwRegs := firstFree s.hwRegs :: s.hwRegs } _).trans
        (Uint32_extends _ _)

/-- C19 : when the collaborators only append to the instruction stream, so do
`Add`, `Sub`, `Mul`, `Quo`, `Rem` and `Neg`: for every operand and every
starting stream `s`, `s` is an initial segment of the stream after the
operation, which is `s` followed by the words emitted: none of the words of `s`
is changed or removed. -/
theorem emission_append_only (B : Bridge) (hB : B.AppendOnly) (asm : Asm) (z : Reg)
    (a : Arg) :
    asm.code <+: (Add B asm z a).code ∧ asm.code <+: (Sub B asm z a).code ∧
    asm.code <+: (Mul B asm z a).code ∧ asm.code <+: (Quo B asm z a).code ∧
    asm.code <+: (Rem B asm z a).code ∧ asm.code <+: (Neg B asm z).code ∧
    (∀ after : Asm, asm.code <+: after.code →
      after.code = asm.code ++ emitted asm after) :=
  ⟨Add_extends B hB asm z a, Sub_extends B hB asm z a, Mul_extends B hB asm z a,
    Quo_extends B hB asm z a, Rem_extends B hB asm z a, Uint32_extends _ _, by
      rintro after ⟨ws, hws⟩
      rw [emitted, ← hws, List.drop_left]⟩

/-- Witness of C19 : with the reference collaborators, `Rem(x2, Const 5000)`
after the word `0x91001400` keeps that word first. -/
theorem emission_append_only_witness :
    [0x91001400] <+: (Rem refBridge ⟨[0x91001400], []⟩ ⟨2⟩ (.const ⟨0, 5000⟩)).code ∧
    (Rem refBridge ⟨[0x91001400], []⟩ ⟨2⟩ (.const ⟨0, 5000⟩)).code
      = [0x91001400, 0xd2827100, 0x9ac00c41, 0x9b008822] :=
  ⟨(emission_append_only refBridge refBridge_appendOnly ⟨[0x91001400], []⟩ ⟨2⟩
      (.const ⟨0, 5000⟩)).2.2.2.2.1, by decide⟩

end Jit
